import Mathlib

set_option maxRecDepth 4000

/-!
Verification development for the `init-data-rs` library: canonicalization,
HMAC-SHA256 signing, first-party hash validation, decoding into a typed
record, and Ed25519-based third-party validation of Telegram Mini App
init data.  Rust strings are modelled as their UTF-8 byte sequences
(`List Nat`, each element `< 256`); machine integers are modelled as `Nat`
with explicit `% 2 ^ 64` where u64 overflow matters.
-/

namespace InitDataRs

/-- UTF-8 encoding of a Unicode code point. -/
def utf8Enc (n : Nat) : List Nat :=
  if n < 0x80 then [n]
  else if n < 0x800 then [0xC0 ||| (n >>> 6), 0x80 ||| (n &&& 0x3F)]
  else if n < 0x10000 then
    [0xE0 ||| (n >>> 12), 0x80 ||| ((n >>> 6) &&& 0x3F), 0x80 ||| (n &&& 0x3F)]
  else
    [0xF0 ||| (n >>> 18), 0x80 ||| ((n >>> 12) &&& 0x3F),
     0x80 ||| ((n >>> 6) &&& 0x3F), 0x80 ||| (n &&& 0x3F)]

/-- The UTF-8 bytes of a string literal; Rust `&str` is exactly this byte sequence. -/
def bs (s : String) : List Nat :=
  (s.data.map (fun c => utf8Enc c.toNat)).flatten

/-! ## SHA-256 over byte lists (32-bit words as `Nat` reduced mod `2 ^ 32`) -/

def w32 (n : Nat) : Nat := n % 4294967296

def rotr32 (k x : Nat) : Nat := w32 ((x >>> k) ||| (x <<< (32 - k)))

def sigB0 (x : Nat) : Nat := (rotr32 2 x) ^^^ (rotr32 13 x) ^^^ (rotr32 22 x)
def sigB1 (x : Nat) : Nat := (rotr32 6 x) ^^^ (rotr32 11 x) ^^^ (rotr32 25 x)
def sigS0 (x : Nat) : Nat := (rotr32 7 x) ^^^ (rotr32 18 x) ^^^ (x >>> 3)
def sigS1 (x : Nat) : Nat := (rotr32 17 x) ^^^ (rotr32 19 x) ^^^ (x >>> 10)

def shaK : List Nat :=
  [1116352408, 1899447441, 3049323471, 3921009573,
   961987163, 1508970993, 2453635748, 2870763221,
   3624381080, 310598401, 607225278, 1426881987,
   1925078388, 2162078206, 2614888103, 3248222580,
   3835390401, 4022224774, 264347078, 604807628,
   770255983, 1249150122, 1555081692, 1996064986,
   2554220882, 2821834349, 2952996808, 3210313671,
   3336571891, 3584528711, 113926993, 338241895,
   666307205, 773529912, 1294757372, 1396182291,
   1695183700, 1986661051, 2177026350, 2456956037,
   2730485921, 2820302411, 3259730800, 3345764771,
   3516065817, 3600352804, 4094571909, 275423344,
   430227734, 506948616, 659060556, 883997877,
   958139571, 1322822218, 1537002063, 1747873779,
   1955562222, 2024104815, 2227730452, 2361852424,
   2428436474, 2756734187, 3204031479, 3329325298]

/-- The 8-word SHA-256 working state. -/
structure H8 where
  a : Nat
  b : Nat
  c : Nat
  d : Nat
  e : Nat
  f : Nat
  g : Nat
  h : Nat
  deriving DecidableEq, Repr

def shaH0 : H8 :=
  ⟨1779033703, 3144134277, 1013904242, 2773480762,
   1359893119, 2600822924, 528734635, 1541459225⟩

/-- Extend the 16-word message schedule by `k` further words. -/
def extendW : Nat → List Nat → List Nat
  | 0, w => w
  | k + 1, w =>
    let l := w.length
    let nw := w32 (sigS1 (w.getD (l - 2) 0) + w.getD (l - 7) 0 +
                   sigS0 (w.getD (l - 15) 0) + w.getD (l - 16) 0)
    extendW k (w ++ [nw])

/-- One round of the SHA-256 compression function on the 8-word state. -/
def shaRound (st : H8) (kw : Nat × Nat) : H8 :=
  let t1 := w32 (st.h + sigB1 st.e +
    ((st.e &&& st.f) ^^^ ((4294967295 ^^^ st.e) &&& st.g)) + kw.1 + kw.2)
  let t2 := w32 (sigB0 st.a +
    ((st.a &&& st.b) ^^^ (st.a &&& st.c) ^^^ (st.b &&& st.c)))
  ⟨w32 (t1 + t2), st.a, st.b, st.c, w32 (st.d + t1), st.e, st.f, st.g⟩

/-- Big-endian 32-bit word from (up to) four bytes. -/
def beWord (l : List Nat) : Nat :=
  l.foldl (fun acc b => acc * 256 + b) 0

/-- Split a list into chunks of `n` (fuelled by the number of chunks). -/
def chunksF : Nat → Nat → List Nat → List (List Nat)
  | 0, _, _ => []
  | fuel + 1, n, l => if l = [] then [] else l.take n :: chunksF fuel n (l.drop n)

def chunks (n : Nat) (l : List Nat) : List (List Nat) :=
  chunksF l.length n l

/-- Process one 64-byte block. -/
def shaBlock (hs : H8) (block : List Nat) : H8 :=
  let w0 := (chunks 4 block).map beWord
  let w := extendW 48 w0
  let st := (shaK.zip w).foldl shaRound hs
  ⟨w32 (hs.a + st.a), w32 (hs.b + st.b), w32 (hs.c + st.c), w32 (hs.d + st.d),
   w32 (hs.e + st.e), w32 (hs.f + st.f), w32 (hs.g + st.g), w32 (hs.h + st.h)⟩

/-- SHA-256 padding: `0x80`, zeros to 56 mod 64, then the 64-bit bit length. -/
def shaPad (msg : List Nat) : List Nat :=
  let len := msg.length
  let zeros := (120 - (len + 1) % 64) % 64
  msg ++ [128] ++ List.replicate zeros 0 ++
    ((List.range 8).map (fun i => ((len * 8) >>> ((7 - i) * 8)) % 256))

/-- Big-endian bytes of a 32-bit word. -/
def be4 (wd : Nat) : List Nat :=
  [(wd >>> 24) % 256, (wd >>> 16) % 256, (wd >>> 8) % 256, wd % 256]

/-- SHA-256 digest (32 bytes) of a byte list. -/
def sha256 (msg : List Nat) : List Nat :=
  let s := (chunks 64 (shaPad msg)).foldl shaBlock shaH0
  ([s.a, s.b, s.c, s.d, s.e, s.f, s.g, s.h].map be4).flatten

/-! ## HMAC-SHA256 -/

/-- HMAC-SHA256 with arbitrary-length key, per RFC 2104 (block size 64). -/
def hmacSha256 (key msg : List Nat) : List Nat :=
  let k0 := if 64 < key.length then sha256 key else key
  let kp := k0 ++ List.replicate (64 - k0.length) 0
  sha256 ((kp.map (fun b => b ^^^ 92)) ++ sha256 ((kp.map (fun b => b ^^^ 54)) ++ msg))

/-- Lowercase hex encoding of a byte list (as in the `hex` crate's `encode`). -/
def hexChar (n : Nat) : Nat := if n < 10 then 48 + n else 87 + n

def hexEncode (l : List Nat) : List Nat :=
  (l.map (fun b => [hexChar (b / 16), hexChar (b % 16)])).flatten

/-! ## `form_urlencoded::parse` (the `url` crate)

`parse` splits the raw bytes on `&` (byte 38), skips empty segments, splits
each segment at the first `=` (byte 61, value empty when absent), and decodes
each component by replacing `+` (43) with space (32), percent-decoding, and
`String::from_utf8_lossy`. -/

def isHexB (b : Nat) : Bool :=
  (48 ≤ b && b ≤ 57) || (97 ≤ b && b ≤ 102) || (65 ≤ b && b ≤ 70)

def hexVal (b : Nat) : Nat :=
  if 48 ≤ b && b ≤ 57 then b - 48
  else if 97 ≤ b && b ≤ 102 then b - 87
  else b - 55

def plusToSpace (l : List Nat) : List Nat :=
  l.map (fun b => if b = 43 then 32 else b)

/-- Percent-decoding, fuelled by the input length (each step consumes at
least one byte): `%XY` with two hex digits decodes to a byte, any other `%`
passes through literally. -/
def percentDecodeF : Nat → List Nat → List Nat
  | 0, _ => []
  | _, [] => []
  | f + 1, x :: rest =>
    if x = 37 then
      match rest with
      | a :: b :: rest2 =>
        if isHexB a && isHexB b then (hexVal a * 16 + hexVal b) :: percentDecodeF f rest2
        else 37 :: percentDecodeF f rest
      | _ => 37 :: percentDecodeF f rest
    else x :: percentDecodeF f rest

def percentDecode (l : List Nat) : List Nat := percentDecodeF l.length l

/-- `String::from_utf8_lossy`: replace each maximal invalid UTF-8 subpart with
U+FFFD (bytes `EF BF BD`), following Rust's validation table.  Fuelled by the
input length (each step consumes at least one byte). -/
def utf8LossyF : Nat → List Nat → List Nat
  | 0, _ => []
  | _, [] => []
  | fuel + 1, b0 :: rest =>
    if b0 < 0x80 then b0 :: utf8LossyF fuel rest
    else if 0xC2 ≤ b0 && b0 ≤ 0xDF then
      match rest with
      | b1 :: rest2 =>
        if 0x80 ≤ b1 && b1 ≤ 0xBF then b0 :: b1 :: utf8LossyF fuel rest2
        else 0xEF :: 0xBF :: 0xBD :: utf8LossyF fuel rest
      | [] => [0xEF, 0xBF, 0xBD]
    else if 0xE0 ≤ b0 && b0 ≤ 0xEF then
      let lo2 := if b0 = 0xE0 then 0xA0 else 0x80
      let hi2 := if b0 = 0xED then 0x9F else 0xBF
      match rest with
      | b1 :: rest2 =>
        if lo2 ≤ b1 && b1 ≤ hi2 then
          match rest2 with
          | b2 :: rest3 =>
            if 0x80 ≤ b2 && b2 ≤ 0xBF then b0 :: b1 :: b2 :: utf8LossyF fuel rest3
            else 0xEF :: 0xBF :: 0xBD :: utf8LossyF fuel rest2
          | [] => [0xEF, 0xBF, 0xBD]
        else 0xEF :: 0xBF :: 0xBD :: utf8LossyF fuel rest
      | [] => [0xEF, 0xBF, 0xBD]
    else if 0xF0 ≤ b0 && b0 ≤ 0xF4 then
      let lo2 := if b0 = 0xF0 then 0x90 else 0x80
      let hi2 := if b0 = 0xF4 then 0x8F else 0xBF
      match rest with
      | b1 :: rest2 =>
        if lo2 ≤ b1 && b1 ≤ hi2 then
          match rest2 with
          | b2 :: rest3 =>
            if 0x80 ≤ b2 && b2 ≤ 0xBF then
              match rest3 with
              | b3 :: rest4 =>
                if 0x80 ≤ b3 && b3 ≤ 0xBF then b0 :: b1 :: b2 :: b3 :: utf8LossyF fuel rest4
                else 0xEF :: 0xBF :: 0xBD :: utf8LossyF fuel rest3
              | [] => [0xEF, 0xBF, 0xBD]
            else 0xEF :: 0xBF :: 0xBD :: utf8LossyF fuel rest2
          | [] => [0xEF, 0xBF, 0xBD]
        else 0xEF :: 0xBF :: 0xBD :: utf8LossyF fuel rest
      | [] => [0xEF, 0xBF, 0xBD]
    else 0xEF :: 0xBF :: 0xBD :: utf8LossyF fuel rest

def utf8Lossy (l : List Nat) : List Nat := utf8LossyF l.length l

/-- Decode one URL component: `+` to space, percent-decode, UTF-8 lossy. -/
def urlDecode (l : List Nat) : List Nat :=
  utf8Lossy (percentDecode (plusToSpace l))

/-- Split on `&` separators (byte 38); `splitAmp [] = [[]]`. -/
def splitAmp : List Nat → List (List Nat)
  | [] => [[]]
  | b :: rest =>
    if b = 38 then [] :: splitAmp rest
    else
      match splitAmp rest with
      | s :: ss => (b :: s) :: ss
      | [] => [[b]]

/-- Split a segment at its first `=`: `(name, value)`, value empty if no `=`. -/
def segPair (seg : List Nat) : List Nat × List Nat :=
  let name := seg.takeWhile (fun b => b ≠ 61)
  (urlDecode name, urlDecode ((seg.drop name.length).drop 1))

/-- The decoded `(key, value)` pairs of a query string, in physical order. -/
def urlPairs (s : List Nat) : List (List Nat × List Nat) :=
  ((splitAmp s).filter (fun seg => seg ≠ [])).map segPair

/-! ## `BTreeMap<String, String>`: sorted association list, byte-lexicographic keys -/

/-- Byte-lexicographic comparison, as `Ord` on Rust `String`. -/
def lexCmp : List Nat → List Nat → Ordering
  | [], [] => .eq
  | [], _ :: _ => .lt
  | _ :: _, [] => .gt
  | a :: as_, b :: bs_ =>
    if a < b then .lt else if b < a then .gt else lexCmp as_ bs_

/-- Insert into a key-sorted association list, replacing an equal key. -/
def btInsert : List (List Nat × List Nat) → List Nat → List Nat →
    List (List Nat × List Nat)
  | [], k, v => [(k, v)]
  | (k0, v0) :: rest, k, v =>
    match lexCmp k k0 with
    | .lt => (k, v) :: (k0, v0) :: rest
    | .eq => (k, v) :: rest
    | .gt => (k0, v0) :: btInsert rest k v

/-- `BTreeMap` built from all pairs of a query string (later keys overwrite). -/
def urlMap (s : List Nat) : List (List Nat × List Nat) :=
  (urlPairs s).foldl (fun m kv => btInsert m kv.1 kv.2) []

def mapLookup (m : List (List Nat × List Nat)) (k : List Nat) : Option (List Nat) :=
  match m with
  | [] => none
  | (k0, v0) :: rest => if k = k0 then some v0 else mapLookup rest k

/-! ## Errors (`InitDataError`; the two signature variants are used by
`third_party_validation.rs`) -/

inductive IDError where
  | AuthDateMissing : IDError
  | HashMissing : IDError
  | HashInvalid : IDError
  | UnexpectedFormat : List Nat → IDError
  | Expired : IDError
  | Internal : List Nat → IDError
  | SignatureMissing : IDError
  | SignatureInvalid : List Nat → IDError
  deriving DecidableEq, Repr

/-! ## `sign` (`src/sign.rs`)

`hmac::Hmac::new_from_slice` never fails for `Hmac<Sha256>` (any key length
is accepted), so the `Internal` error branches of the source are dead code
and the HMAC computations are modelled as total. -/

def signDcs (initData : List Nat) : List Nat :=
  let params := (urlPairs initData).foldl
    (fun m kv => if kv.1 ≠ bs "hash" then btInsert m kv.1 kv.2 else m) []
  (List.intercalate [10] (params.map (fun kv => kv.1 ++ 61 :: kv.2)))

def sign (initData token : List Nat) : Except IDError (List Nat) :=
  if initData = [] then .error (.UnexpectedFormat (bs "init_data is empty"))
  else if token = [] then .error (.UnexpectedFormat (bs "token is empty"))
  else
    .ok (hexEncode (hmacSha256 (hmacSha256 (bs "WebAppData") token) (signDcs initData)))

/-! ## JSON values and `serde_json` parsing

`parse` in `src/parse.rs` rebuilds a JSON object string from the decoded
parameters and feeds it to `serde_json::from_str`.  The JSON grammar is
RFC 8259 as implemented by `serde_json`: integers outside the
`u64`/`i64` ranges and all numbers with a fraction or exponent are stored
as floats (modelled by the opaque `jfloat`), strings reject raw control
characters and lone surrogates, and whitespace is `space/tab/LF/CR`. -/

inductive JVal where
  | jnull : JVal
  | jbool : Bool → JVal
  | jint : Int → JVal
  | jfloat : JVal
  | jstr : List Nat → JVal
  | jarr : List JVal → JVal
  | jobj : List (List Nat × JVal) → JVal

def jIsWs (b : Nat) : Bool := b = 32 || b = 9 || b = 10 || b = 13

def jSkipWs (l : List Nat) : List Nat := l.dropWhile jIsWs

def isDigitB (b : Nat) : Bool := 48 ≤ b && b ≤ 57

/-- Parse the body of a JSON string (after the opening quote), returning the
decoded bytes and the input after the closing quote. -/
def jStrBody : List Nat → Option (List Nat × List Nat)
  | [] => none
  | 34 :: r => some ([], r)
  | 92 :: 117 :: a :: b :: c :: d :: r =>
    if isHexB a && isHexB b && isHexB c && isHexB d then
      let cp := ((hexVal a * 16 + hexVal b) * 16 + hexVal c) * 16 + hexVal d
      if 0xD800 ≤ cp && cp ≤ 0xDBFF then
        match r with
        | 92 :: 117 :: e :: f :: g :: h :: r2 =>
          if isHexB e && isHexB f && isHexB g && isHexB h then
            let lo := ((hexVal e * 16 + hexVal f) * 16 + hexVal g) * 16 + hexVal h
            if 0xDC00 ≤ lo && lo ≤ 0xDFFF then
              (jStrBody r2).map (fun p =>
                (utf8Enc (0x10000 + (cp - 0xD800) * 1024 + (lo - 0xDC00)) ++ p.1, p.2))
            else none
          else none
        | _ => none
      else if 0xDC00 ≤ cp && cp ≤ 0xDFFF then none
      else (jStrBody r).map (fun p => (utf8Enc cp ++ p.1, p.2))
    else none
  | 92 :: e :: r =>
    ((match e with
      | 34 => some 34 | 92 => some 92 | 47 => some 47
      | 98 => some 8 | 102 => some 12 | 110 => some 10
      | 114 => some 13 | 116 => some 9 | _ => none : Option Nat)).bind
      (fun ch => (jStrBody r).map (fun p => (ch :: p.1, p.2)))
  | b :: r =>
    if b < 0x20 then none else (jStrBody r).map (fun p => (b :: p.1, p.2))

/-- Parse a JSON number starting at the input head (which is `-` or a digit),
with `serde_json`'s range behaviour. -/
def jNum (l : List Nat) : Option (JVal × List Nat) :=
  let (neg, l1) := match l with | 45 :: t => (true, t) | t => (false, t)
  let ip := l1.takeWhile isDigitB
  if ip = [] then none
  else if 1 < ip.length && ip.headD 0 = 48 then none
  else
    let l2 := l1.drop ip.length
    let (fr, l3) := match l2 with
      | 46 :: t =>
        let ds := t.takeWhile isDigitB
        if ds = [] then ([46], t) else (46 :: ds, t.drop ds.length)
      | t => ([], t)
    if fr = [46] then none
    else
      let (ex, l4) := match l3 with
        | 101 :: t => (some t, t) | 69 :: t => (some t, t) | t => (none, t)
      match ex with
      | some t =>
        let t2 := match t with | 43 :: u => u | 45 :: u => u | u => u
        let ds := t2.takeWhile isDigitB
        if ds = [] then none else some (JVal.jfloat, t2.drop ds.length)
      | none =>
        if fr ≠ [] then some (JVal.jfloat, l4)
        else
          let v : Nat := ip.foldl (fun acc d => acc * 10 + (d - 48)) 0
          if neg then
            if v ≤ 9223372036854775808 then some (JVal.jint (-(v : Int)), l4)
            else some (JVal.jfloat, l4)
          else
            if v ≤ 18446744073709551615 then some (JVal.jint (v : Int), l4)
            else some (JVal.jfloat, l4)

mutual

/-- Fuelled JSON value parser (leading whitespace allowed). -/
def jVal : Nat → List Nat → Option (JVal × List Nat)
  | 0, _ => none
  | fuel + 1, l =>
    match jSkipWs l with
    | 110 :: 117 :: 108 :: 108 :: r => some (.jnull, r)
    | 116 :: 114 :: 117 :: 101 :: r => some (.jbool true, r)
    | 102 :: 97 :: 108 :: 115 :: 101 :: r => some (.jbool false, r)
    | 34 :: r => (jStrBody r).map (fun p => (.jstr p.1, p.2))
    | 91 :: r =>
      (match jSkipWs r with
       | 93 :: r2 => some (.jarr [], r2)
       | _ => (jArrTail fuel r).map (fun p => (.jarr p.1, p.2)))
    | 123 :: r =>
      (match jSkipWs r with
       | 125 :: r2 => some (.jobj [], r2)
       | _ => (jObjTail fuel r).map (fun p => (.jobj p.1, p.2)))
    | l2 => jNum l2

/-- Elements of a non-empty array, expecting a value next. -/
def jArrTail : Nat → List Nat → Option (List JVal × List Nat)
  | 0, _ => none
  | fuel + 1, l =>
    (jVal fuel l).bind (fun p =>
      match jSkipWs p.2 with
      | 44 :: r => (jArrTail fuel r).map (fun q => (p.1 :: q.1, q.2))
      | 93 :: r => some ([p.1], r)
      | _ => none)

/-- Members of a non-empty object, expecting a `"key": value` pair next. -/
def jObjTail : Nat → List Nat → Option (List (List Nat × JVal) × List Nat)
  | 0, _ => none
  | fuel + 1, l =>
    match jSkipWs l with
    | 34 :: r =>
      (jStrBody r).bind (fun kp =>
        match jSkipWs kp.2 with
        | 58 :: r2 =>
          (jVal fuel r2).bind (fun vp =>
            match jSkipWs vp.2 with
            | 44 :: r3 => (jObjTail fuel r3).map (fun q => ((kp.1, vp.1) :: q.1, q.2))
            | 125 :: r3 => some ([(kp.1, vp.1)], r3)
            | _ => none)
        | _ => none)
    | _ => none

end

/-- `serde_json::from_str::<Value>`: parse a complete JSON document
(trailing whitespace allowed). -/
def jParseDoc (l : List Nat) : Option JVal :=
  (jVal (2 * l.length + 4) l).bind (fun p => if jSkipWs p.2 = [] then some p.1 else none)

/-! ## The typed record (`src/model.rs`) -/

inductive ChatType where
  | sender | priv | group | supergroup | channel
  deriving DecidableEq, Repr

structure TgUser where
  addedToAttachmentMenu : Option Bool
  allowsWriteToPm : Option Bool
  firstName : List Nat
  id : Int
  isBot : Option Bool
  isPremium : Option Bool
  lastName : Option (List Nat)
  languageCode : Option (List Nat)
  photoUrl : Option (List Nat)
  username : Option (List Nat)
  deriving DecidableEq, Repr

structure TgChat where
  id : Int
  photoUrl : Option (List Nat)
  chatType : ChatType
  title : List Nat
  username : Option (List Nat)
  deriving DecidableEq, Repr

structure InitData where
  authDate : Nat
  canSendAfter : Option Nat
  chat : Option TgChat
  chatType : Option ChatType
  chatInstance : Option Int
  hash : List Nat
  queryId : Option (List Nat)
  receiver : Option TgUser
  startParam : Option (List Nat)
  user : Option TgUser
  signature : Option (List Nat)
  deriving DecidableEq, Repr

deriving instance DecidableEq for Except

/-! ## `serde` deserialization of the record from a JSON value

Unknown object fields are ignored, a duplicated known field is an error,
a missing `Option` field (or an explicit `null`) is `none`, and a missing
required field is an error.  All `serde` failures carry only an error
message, which `parse` wraps in `UnexpectedFormat`; messages of this
external collaborator are modelled by one opaque constant. -/

def jAsU64 : JVal → Option Nat
  | .jint z => if 0 ≤ z ∧ z < 18446744073709551616 then some z.toNat else none
  | _ => none

def jAsU32 : JVal → Option Nat
  | .jint z => if 0 ≤ z ∧ z < 4294967296 then some z.toNat else none
  | _ => none

def jAsI64 : JVal → Option Int
  | .jint z => if -9223372036854775808 ≤ z ∧ z ≤ 9223372036854775807 then some z else none
  | _ => none

def jAsStr : JVal → Option (List Nat)
  | .jstr s => some s
  | _ => none

def jAsBool : JVal → Option Bool
  | .jbool b => some b
  | _ => none

def jAsChatType (v : JVal) : Option ChatType :=
  match v with
  | .jstr s =>
    if s = bs "sender" then some .sender
    else if s = bs "private" then some .priv
    else if s = bs "group" then some .group
    else if s = bs "supergroup" then some .supergroup
    else if s = bs "channel" then some .channel
    else none
  | _ => none

def fieldLookup (fields : List (List Nat × JVal)) (k : List Nat) : Option JVal :=
  match fields with
  | [] => none
  | (k0, v0) :: rest => if k0 = k then some v0 else fieldLookup rest k

def fieldCount (fields : List (List Nat × JVal)) (k : List Nat) : Nat :=
  fields.countP (fun f => f.1 = k)

/-- An optional struct field: absent or `null` is `none`; a present value
must convert. -/
def optField (fields : List (List Nat × JVal)) (k : List Nat)
    (conv : JVal → Option α) : Option (Option α) :=
  match fieldLookup fields k with
  | none => some none
  | some .jnull => some none
  | some v => (conv v).map some

/-- A required struct field. -/
def reqField (fields : List (List Nat × JVal)) (k : List Nat)
    (conv : JVal → Option α) : Option α :=
  (fieldLookup fields k).bind conv

def noDupFields (fields : List (List Nat × JVal)) (ks : List (List Nat)) : Bool :=
  ks.all (fun k => fieldCount fields k ≤ 1)

def jAsUser : JVal → Option TgUser
  | .jobj fields =>
    if noDupFields fields
        [bs "added_to_attachment_menu", bs "allows_write_to_pm", bs "first_name",
         bs "id", bs "is_bot", bs "is_premium", bs "last_name", bs "language_code",
         bs "photo_url", bs "username"] then
      (optField fields (bs "added_to_attachment_menu") jAsBool).bind fun a =>
      (optField fields (bs "allows_write_to_pm") jAsBool).bind fun w =>
      (reqField fields (bs "first_name") jAsStr).bind fun fn =>
      (reqField fields (bs "id") jAsI64).bind fun i =>
      (optField fields (bs "is_bot") jAsBool).bind fun ib =>
      (optField fields (bs "is_premium") jAsBool).bind fun ip =>
      (optField fields (bs "last_name") jAsStr).bind fun ln =>
      (optField fields (bs "language_code") jAsStr).bind fun lc =>
      (optField fields (bs "photo_url") jAsStr).bind fun pu =>
      (optField fields (bs "username") jAsStr).map fun un =>
        TgUser.mk a w fn i ib ip ln lc pu un
    else none
  | _ => none

def jAsChat : JVal → Option TgChat
  | .jobj fields =>
    if noDupFields fields
        [bs "id", bs "photo_url", bs "type", bs "title", bs "username"] then
      (reqField fields (bs "id") jAsI64).bind fun i =>
      (optField fields (bs "photo_url") jAsStr).bind fun pu =>
      (reqField fields (bs "type") jAsChatType).bind fun ct =>
      (reqField fields (bs "title") jAsStr).bind fun ti =>
      (optField fields (bs "username") jAsStr).map fun un =>
        TgChat.mk i pu ct ti un
    else none
  | _ => none

def initDataOfJson : JVal → Option InitData
  | .jobj fields =>
    if noDupFields fields
        [bs "auth_date", bs "can_send_after", bs "chat", bs "chat_type",
         bs "chat_instance", bs "hash", bs "query_id", bs "receiver",
         bs "start_param", bs "user", bs "signature"] then
      (reqField fields (bs "auth_date") jAsU64).bind fun ad =>
      (optField fields (bs "can_send_after") jAsU32).bind fun csa =>
      (optField fields (bs "chat") jAsChat).bind fun ch =>
      (optField fields (bs "chat_type") jAsChatType).bind fun ct =>
      (optField fields (bs "chat_instance") jAsI64).bind fun ci =>
      (reqField fields (bs "hash") jAsStr).bind fun h =>
      (optField fields (bs "query_id") jAsStr).bind fun qi =>
      (optField fields (bs "receiver") jAsUser).bind fun rc =>
      (optField fields (bs "start_param") jAsStr).bind fun sp =>
      (optField fields (bs "user") jAsUser).bind fun us =>
      (optField fields (bs "signature") jAsStr).map fun sg =>
        InitData.mk ad csa ch ct ci h qi rc sp us sg
    else none
  | _ => none

/-! ## `parse` (`src/parse.rs`) -/

/-- `v.replace('\x22', "\x5c\x22")` of the quoted branch. -/
def jsonEscape (v : List Nat) : List Nat :=
  (v.map (fun b => if b = 34 then [92, 34] else [b])).flatten

/-- One `"key":value` member: the value is embedded raw when the key is not a
string-property and the value parses as JSON, else quoted with `"` escaped. -/
def jsonEntry (kv : List Nat × List Nat) : List Nat :=
  34 :: kv.1 ++ [34, 58] ++
    (if kv.1 ≠ bs "start_param" && (jParseDoc kv.2).isSome then kv.2
     else 34 :: jsonEscape kv.2 ++ [34])

def jsonBuild (m : List (List Nat × List Nat)) : List Nat :=
  123 :: List.intercalate [44] (m.map jsonEntry) ++ [125]

def parse (s : List Nat) : Except IDError InitData :=
  if s = [] then .error (.UnexpectedFormat (bs "init_data is empty"))
  else if s.contains 59 || !s.contains 61 then
    .error (.UnexpectedFormat (bs "Invalid query string format"))
  else
    match (jParseDoc (jsonBuild (urlMap s))).bind initDataOfJson with
    | some d => .ok d
    | none => .error (.UnexpectedFormat (bs "serde error"))

/-! ## `extract_hash` and `validate` (`src/validation.rs`)

`SystemTime::now` is modelled by the explicit `now` argument (unix seconds);
the `u64` addition `auth_date + expires_in` wraps modulo `2 ^ 64`. -/

def hashMarker : List Nat := bs "&hash="

/-- First byte index of `pat` in `s` (`str::find`). -/
def strFind (pat : List Nat) : List Nat → Option Nat
  | [] => if pat = [] then some 0 else none
  | b :: t =>
    if (b :: t).take pat.length = pat then some 0
    else (strFind pat t).map (· + 1)

def extractHash (s : List Nat) : Except IDError (List Nat × List Nat) :=
  match strFind hashMarker s with
  | none => .error .HashMissing
  | some pos =>
    let h := (s.drop pos).drop 6
    if !(h.all isHexB) || h.length ≠ 64 then .error .HashInvalid
    else .ok (s.take pos, h)

def validate (now : Nat) (initData token : List Nat) (expiresIn : Option Nat) :
    Except IDError InitData :=
  if initData = [] || !initData.contains 61 then
    .error (.UnexpectedFormat (bs "init_data is empty or malformed"))
  else
    match extractHash initData with
    | .error e => .error e
    | .ok (baseData, h) =>
      match sign baseData token with
      | .error e => .error e
      | .ok expected =>
        if h ≠ expected then .error .HashInvalid
        else
          match parse initData with
          | .error e => .error e
          | .ok data =>
            let exp := expiresIn.getD 86400
            if 0 < exp then
              if (data.authDate + exp) % 18446744073709551616 < now then
                .error .Expired
              else .ok data
            else .ok data

/-! ## Third-party validation (`src/third_party_validation.rs`)

The Ed25519 primitives of `ed25519_dalek` are external collaborators:
`VerifyingKey::from_bytes` is modelled by the parameter `keyOk` and
`VerifyingKey::verify` by the parameter `verify` (public key bytes, message
bytes, signature bytes).  Everything else — pair scanning, `auth_date`
parsing, the early expiry check, stable key sort, message construction,
base64url decoding, signature length check, hex public-key constants —
is translated from the source. -/

/-- Rust `str::parse::<u64>`: optional leading `+`, one or more ASCII digits,
value within `u64`. -/
def parseU64 (s : List Nat) : Option Nat :=
  let t := match s with | 43 :: r => r | r => r
  if t = [] then none
  else if t.all isDigitB then
    let v : Nat := t.foldl (fun acc d => acc * 10 + (d - 48)) 0
    if v < 18446744073709551616 then some v else none
  else none

/-- The scan loop over the decoded pairs: collects the (last) `signature`
value, the non-`signature`/non-`hash` pairs in physical order, and the
parse result of the last `auth_date` value. -/
def tpScan (pairs : List (List Nat × List Nat)) :
    Option (List Nat) × List (List Nat × List Nat) × Option Nat :=
  pairs.foldl (fun st kv =>
    if kv.1 = bs "signature" then (some kv.2, st.2.1, st.2.2)
    else if kv.1 = bs "auth_date" then (st.1, st.2.1 ++ [kv], parseU64 kv.2)
    else if kv.1 = bs "hash" then st
    else (st.1, st.2.1 ++ [kv], st.2.2)) (none, [], none)

/-- Insert at the position a stable sort by key gives: after every element
whose key is less than or equal. -/
def insKeyStable (acc : List (List Nat × List Nat)) (p : List Nat × List Nat) :
    List (List Nat × List Nat) :=
  match acc with
  | [] => [p]
  | q :: rest =>
    if lexCmp p.1 q.1 = .lt then p :: q :: rest else q :: insKeyStable rest p

/-- `Vec::sort_by(|a, b| a.0.cmp(&b.0))`: a stable sort by key (all stable
sorts under one comparator agree, so insertion order realizes it). -/
def stableSortByKey (l : List (List Nat × List Nat)) : List (List Nat × List Nat) :=
  l.foldl insKeyStable []

def natDecF : Nat → Nat → List Nat
  | 0, _ => []
  | f + 1, n => if n < 10 then [48 + n] else natDecF f (n / 10) ++ [48 + n % 10]

/-- Decimal display of `i64` (`format!("{}", bot_id)`). -/
def intDec (z : Int) : List Nat :=
  if z < 0 then 45 :: natDecF (z.natAbs + 1) z.natAbs
  else natDecF (z.toNat + 1) z.toNat

def tpFiltered (s : List Nat) : List (List Nat × List Nat) :=
  (tpScan (urlPairs s)).2.1

/-- The verification message:
`format!("{}:WebAppData\n{}", bot_id, joined_sorted_pairs)`. -/
def tpMessage (botId : Int) (s : List Nat) : List Nat :=
  intDec botId ++ bs ":WebAppData" ++
    10 :: List.intercalate [10]
      ((stableSortByKey (tpFiltered s)).map (fun kv => kv.1 ++ 61 :: kv.2))

/-- base64url (no padding) alphabet value. -/
def b64UrlVal (c : Nat) : Option Nat :=
  if 65 ≤ c && c ≤ 90 then some (c - 65)
  else if 97 ≤ c && c ≤ 122 then some (c - 71)
  else if 48 ≤ c && c ≤ 57 then some (c + 4)
  else if c = 45 then some 62
  else if c = 95 then some 63
  else none

/-- Reassemble 6-bit groups into bytes; strict about length `% 4 = 1` and
nonzero trailing bits, as the `base64` crate's `URL_SAFE_NO_PAD` engine. -/
def b64Group : List Nat → Option (List Nat)
  | [] => some []
  | [_] => none
  | [a, b] => if b % 16 = 0 then some [a * 4 + b / 16] else none
  | [a, b, c] =>
    if c % 4 = 0 then some [a * 4 + b / 16, (b % 16) * 16 + c / 4] else none
  | a :: b :: c :: d :: rest =>
    (b64Group rest).map (fun t =>
      (a * 4 + b / 16) :: ((b % 16) * 16 + c / 4) :: ((c % 4) * 64 + d) :: t)

def base64UrlDecode (s : List Nat) : Option (List Nat) :=
  (s.mapM b64UrlVal).bind b64Group

def hexDecodePairs : List Nat → Option (List Nat)
  | [] => some []
  | [_] => none
  | a :: b :: rest =>
    if isHexB a && isHexB b then
      (hexDecodePairs rest).map (fun t => (hexVal a * 16 + hexVal b) :: t)
    else none

/-- `<[u8; 32]>::from_hex`. -/
def hexDecode32 (s : List Nat) : Option (List Nat) :=
  (hexDecodePairs s).bind (fun l => if l.length = 32 then some l else none)

def testPublicKeyHex : List Nat :=
  bs "40055058a4ee38156a06562e52eece92a771bcd8346a8c4615cb7376eddf72ec"

def prodPublicKeyHex : List Nat :=
  bs "e7bf03a2fa4602af4580703d88dda5bb59f32ed8b02a56c187fe7d34caed242d"

/-- Steps 5–9 of the source (after the early expiry check): base64url-decode
the signature, parse it as a 64-byte signature, decode and parse the fixed
public key, verify over the constructed message, and hand the raw string to
the decoder. -/
def tpVerifyAndParse (keyOk : List Nat → Bool)
    (verify : List Nat → List Nat → List Nat → Bool)
    (initData : List Nat) (botId : Int) (isTest : Bool) (sigB64 : List Nat) :
    Except IDError InitData :=
  match base64UrlDecode sigB64 with
  | none => .error (.SignatureInvalid (bs "Failed to decode signature from base64"))
  | some sigBytes =>
    if sigBytes.length ≠ 64 then
      .error (.SignatureInvalid (bs "Failed to parse signature"))
    else
      match hexDecode32 (if isTest then testPublicKeyHex else prodPublicKeyHex) with
      | none => .error (.SignatureInvalid (bs "Failed to parse public key"))
      | some pkBytes =>
        if !keyOk pkBytes then
          .error (.SignatureInvalid (bs "Failed to parse public key"))
        else if !verify pkBytes (tpMessage botId initData) sigBytes then
          .error (.SignatureInvalid (bs "Failed to verify signature"))
        else
          match parse initData with
          | .error e => .error e
          | .ok d => .ok d

def validateThirdPartyWithSignature
    (keyOk : List Nat → Bool) (verify : List Nat → List Nat → List Nat → Bool)
    (now : Nat) (initData : List Nat) (botId : Int) (expiresIn : Option Nat)
    (isTest : Bool) : Except IDError InitData :=
  if initData = [] || !initData.contains 61 then
    .error (.UnexpectedFormat (bs "init_data is empty or malformed"))
  else
    let st := tpScan (urlPairs initData)
    match st.1 with
    | none => .error .SignatureMissing
    | some sigB64 =>
      let expired : Bool :=
        match expiresIn, st.2.2 with
        | some e, some a => (a + e) % 18446744073709551616 < now
        | _, _ => false
      if expired then .error .Expired
      else tpVerifyAndParse keyOk verify initData botId isTest sigB64

/-- The public entry point fixes the production key. -/
def validateThirdParty (keyOk : List Nat → Bool)
    (verify : List Nat → List Nat → List Nat → Bool)
    (now : Nat) (initData : List Nat) (botId : Int) (expiresIn : Option Nat) :
    Except IDError InitData :=
  validateThirdPartyWithSignature keyOk verify now initData botId expiresIn false

/-! ## Specification-side definitions

These re-state, in the words of the specification, the canonical
data-check-string of §4.1/§8 and the third-party verification message of
§4.1/§4.4: percent-decoded parameters collapsed to unique keys with later
duplicates overwriting earlier ones, serialized as `key=value` lines in
ascending byte order of keys.  They are compared against the definitions
translated from the source. -/

/-- The value of the last occurrence of key `k`. -/
def lastLookup : List (List Nat × List Nat) → List Nat → Option (List Nat)
  | [], _ => none
  | kv :: rest, k =>
    match lastLookup rest k with
    | some v => some v
    | none => if kv.1 = k then some kv.2 else none

/-- Insert a key into a strictly sorted key list (dropped if present). -/
def insSortedKey (k : List Nat) : List (List Nat) → List (List Nat)
  | [] => [k]
  | k0 :: rest =>
    match lexCmp k k0 with
    | .lt => k :: k0 :: rest
    | .eq => k0 :: rest
    | .gt => k0 :: insSortedKey k rest

/-- The distinct keys of a pair list, in ascending byte order. -/
def sortedKeys (l : List (List Nat × List Nat)) : List (List Nat) :=
  l.foldl (fun acc kv => insSortedKey kv.1 acc) []

/-- Specification-side canonical parameter set: unique keys in ascending
byte order, each mapped to its last-written value. -/
def canonSpec (l : List (List Nat × List Nat)) : List (List Nat × List Nat) :=
  (sortedKeys l).map (fun k => (k, (lastLookup l k).getD []))

/-- Specification-side data-check-string of `sign`: canonical newline-joined
`key=value` lines of the decoded parameters with the `hash` field removed. -/
def specDcs (s : List Nat) : List Nat :=
  List.intercalate [10]
    ((canonSpec ((urlPairs s).filter (fun kv => kv.1 ≠ bs "hash"))).map
      (fun kv => kv.1 ++ 61 :: kv.2))

/-- The third-party message as the claim states it: bot-id prefix, then the
canonical lines of the parameters with `signature` and `hash` excluded,
collapsed to unique keys (later duplicates overwriting earlier ones). -/
def tpMessageCollapsed (botId : Int) (s : List Nat) : List Nat :=
  intDec botId ++ bs ":WebAppData" ++
    10 :: List.intercalate [10]
      ((canonSpec ((urlPairs s).filter
          (fun kv => kv.1 ≠ bs "signature" && kv.1 ≠ bs "hash"))).map
        (fun kv => kv.1 ++ 61 :: kv.2))

/-! ## Auxiliary predicates and concrete inputs used by the theorems -/

/-- `pat` occurs in `s` at byte position `i`. -/
def prefixAt (pat s : List Nat) (i : Nat) : Prop :=
  (s.drop i).take pat.length = pat

instance (pat s : List Nat) (i : Nat) : Decidable (prefixAt pat s i) := by
  unfold prefixAt; infer_instance

/-- Lowercase-hex byte (digit or `a`–`f`). -/
def isLowerHexB (b : Nat) : Bool :=
  (48 ≤ b && b ≤ 57) || (97 ≤ b && b ≤ 102)

/-- A short bot token used for concrete instances. -/
def cexToken : List Nat := bs "T"

/-- `auth_date = u64::MAX` base string: the `u64` expiry addition wraps. -/
def cexBaseWrap : List Nat := bs "auth_date=18446744073709551615"

/-- The corresponding well-signed init data. -/
def cexFullWrap : List Nat :=
  cexBaseWrap ++ hashMarker ++ ((sign cexBaseWrap cexToken).toOption.getD [])

/-- A small well-formed parameter set and its well-signed init data. -/
def cexBaseP : List Nat := bs "auth_date=1&query_id=AAA"

def cexFullP : List Nat :=
  cexBaseP ++ hashMarker ++ ((sign cexBaseP cexToken).toOption.getD [])

/-! ## Byte-level facts about digests and hex encoding -/

theorem sha256_length (m : List Nat) : (sha256 m).length = 32 := rfl

theorem sha256_lt (m : List Nat) : ∀ b ∈ sha256 m, b < 256 := by
  intro b hb
  simp only [sha256, be4, List.map, List.flatten, List.mem_append, List.mem_cons,
    List.not_mem_nil, or_false, List.append_nil] at hb
  rcases hb with h | h | h | h | h | h | h | h <;>
    rcases h with h | h | h | h <;> subst h <;> omega

theorem hmacSha256_length (k m : List Nat) : (hmacSha256 k m).length = 32 :=
  sha256_length _

theorem hmacSha256_lt (k m : List Nat) : ∀ b ∈ hmacSha256 k m, b < 256 :=
  sha256_lt _

theorem hexEncode_nil : hexEncode [] = [] := rfl

theorem hexEncode_cons (b : Nat) (t : List Nat) :
    hexEncode (b :: t) = hexChar (b / 16) :: hexChar (b % 16) :: hexEncode t := rfl

theorem hexEncode_length (l : List Nat) : (hexEncode l).length = 2 * l.length := by
  induction l with
  | nil => rfl
  | cons b t ih => rw [hexEncode_cons]; simp [ih]; omega

theorem hexChar_range (n : Nat) (h : n < 16) :
    (48 ≤ hexChar n ∧ hexChar n ≤ 57) ∨ (97 ≤ hexChar n ∧ hexChar n ≤ 102) := by
  simp only [hexChar]; split <;> omega

theorem hexEncode_range (l : List Nat) (hl : ∀ b ∈ l, b < 256) :
    ∀ c ∈ hexEncode l, (48 ≤ c ∧ c ≤ 57) ∨ (97 ≤ c ∧ c ≤ 102) := by
  induction l with
  | nil => simp [hexEncode_nil]
  | cons b t ih =>
    intro c hc
    have hb : b < 256 := hl b (by simp)
    rw [hexEncode_cons] at hc
    rcases List.mem_cons.mp hc with rfl | hc2
    · exact hexChar_range _ (by omega)
    · rcases List.mem_cons.mp hc2 with rfl | hc3
      · exact hexChar_range _ (by omega)
      · exact ih (fun x hx => hl x (by simp [hx])) c hc3

theorem hexEncode_isHexB (l : List Nat) (hl : ∀ b ∈ l, b < 256) :
    ∀ c ∈ hexEncode l, isHexB c = true := by
  intro c hc
  rcases hexEncode_range l hl c hc with h | h <;> simp [isHexB] <;> omega

/-! ## Identity of URL decoding on plain ASCII without `%`, `+` -/

theorem plusToSpace_id (l : List Nat) (h : ∀ c ∈ l, c ≠ 43) : plusToSpace l = l := by
  induction l with
  | nil => rfl
  | cons b t ih =>
    simp only [plusToSpace, List.map] at ih ⊢
    rw [if_neg (h b (by simp)), ih (fun c hc => h c (by simp [hc]))]

theorem percentDecodeF_id (f : Nat) :
    ∀ l : List Nat, l.length ≤ f → (∀ c ∈ l, c ≠ 37) → percentDecodeF f l = l := by
  induction f with
  | zero => intro l hl _; simp [List.length_eq_zero.mp (Nat.le_zero.mp hl), percentDecodeF]
  | succ f ih =>
    intro l hl hc
    cases l with
    | nil => rfl
    | cons b t =>
      show (if b = 37 then _ else b :: percentDecodeF f t) = b :: t
      rw [if_neg (hc b (by simp)),
        ih t (by simpa using Nat.le_of_succ_le_succ hl) (fun c hct => hc c (by simp [hct]))]

theorem percentDecode_id (l : List Nat) (h : ∀ c ∈ l, c ≠ 37) : percentDecode l = l :=
  percentDecodeF_id l.length l le_rfl h

theorem utf8LossyF_ascii (f : Nat) :
    ∀ l : List Nat, l.length ≤ f → (∀ c ∈ l, c < 128) → utf8LossyF f l = l := by
  induction f with
  | zero => intro l hl _; simp [List.length_eq_zero.mp (Nat.le_zero.mp hl), utf8LossyF]
  | succ f ih =>
    intro l hl hc
    cases l with
    | nil => rfl
    | cons b t =>
      have hb : b < 128 := hc b (by simp)
      show utf8LossyF (f + 1) (b :: t) = b :: t
      rw [utf8LossyF.eq_def]
      simp only [if_pos (show b < 0x80 by omega)]
      rw [ih t (by simpa using Nat.le_of_succ_le_succ hl)
        (fun c hct => hc c (by simp [hct]))]

theorem utf8Lossy_ascii (l : List Nat) (h : ∀ c ∈ l, c < 128) : utf8Lossy l = l :=
  utf8LossyF_ascii l.length l le_rfl h

theorem urlDecode_id (l : List Nat)
    (h : ∀ c ∈ l, c < 128 ∧ c ≠ 37 ∧ c ≠ 43) : urlDecode l = l := by
  rw [urlDecode, plusToSpace_id l (fun c hc => (h c hc).2.2),
    percentDecode_id l (fun c hc => (h c hc).2.1),
    utf8Lossy_ascii l (fun c hc => (h c hc).1)]

/-! ## `splitAmp` algebra -/

theorem splitAmp_ne_nil (l : List Nat) : splitAmp l ≠ [] := by
  cases l with
  | nil => simp [splitAmp]
  | cons b t =>
    rw [splitAmp]
    split
    · simp
    · rcases h : splitAmp t with _ | ⟨s, ss⟩ <;> simp

theorem splitAmp_cons_sep (t : List Nat) : splitAmp (38 :: t) = [] :: splitAmp t := by
  rw [splitAmp, if_pos rfl]

theorem splitAmp_cons_ne (c : Nat) (t : List Nat) (hc : c ≠ 38) :
    splitAmp (c :: t) =
      match splitAmp t with
      | s :: ss => (c :: s) :: ss
      | [] => [[c]] := by
  rw [splitAmp, if_neg hc]

theorem splitAmp_append (a b : List Nat) :
    splitAmp (a ++ 38 :: b) = splitAmp a ++ splitAmp b := by
  induction a with
  | nil => rw [List.nil_append, splitAmp_cons_sep]; rfl
  | cons c a ih =>
    by_cases hc : c = 38
    · subst hc
      rw [List.cons_append, splitAmp_cons_sep, splitAmp_cons_sep, ih, List.cons_append]
    · rcases h : splitAmp a with _ | ⟨s, ss⟩
      · exact absurd h (splitAmp_ne_nil a)
      · rw [List.cons_append, splitAmp_cons_ne c _ hc, splitAmp_cons_ne c _ hc, ih, h,
          List.cons_append]
        rfl

theorem splitAmp_no_sep (l : List Nat) (h : ∀ c ∈ l, c ≠ 38) : splitAmp l = [l] := by
  induction l with
  | nil => rfl
  | cons b t ih =>
    rw [splitAmp, if_neg (h b (by simp)), ih (fun c hc => h c (by simp [hc]))]

/-! ## `strFind` versus positional occurrence -/

theorem prefixAt_zero (pat s : List Nat) : prefixAt pat s 0 ↔ s.take pat.length = pat := by
  simp [prefixAt]

theorem prefixAt_cons_succ (pat : List Nat) (b : Nat) (t : List Nat) (i : Nat) :
    prefixAt pat (b :: t) (i + 1) ↔ prefixAt pat t i := by
  simp [prefixAt]

theorem strFind_eq_none (pat s : List Nat)
    (h : ∀ i, ¬ prefixAt pat s i) : strFind pat s = none := by
  induction s with
  | nil =>
    rw [strFind]
    split
    · next hp => exact absurd ((prefixAt_zero pat []).mpr (by simp [hp])) (h 0)
    · rfl
  | cons b t ih =>
    rw [strFind]
    split
    · next hp => exact absurd ((prefixAt_zero pat (b :: t)).mpr hp) (h 0)
    · rw [ih (fun i => fun hi => h (i + 1) ((prefixAt_cons_succ pat b t i).mpr hi))]
      rfl

theorem strFind_eq_some (pat s : List Nat) (p : Nat)
    (hp : prefixAt pat s p) (hmin : ∀ j < p, ¬ prefixAt pat s j) :
    strFind pat s = some p := by
  induction s generalizing p with
  | nil =>
    have hpat : pat = [] := by simpa [prefixAt] using hp
    subst hpat
    have hp0 : p = 0 := by
      by_contra hne
      exact hmin 0 (Nat.pos_of_ne_zero hne) (by simp [prefixAt])
    subst hp0
    simp [strFind]
  | cons b t ih =>
    cases p with
    | zero =>
      rw [strFind, if_pos ((prefixAt_zero pat (b :: t)).mp hp)]
    | succ q =>
      rw [strFind, if_neg (fun hc => hmin 0 (Nat.succ_pos q)
        ((prefixAt_zero pat (b :: t)).mpr hc))]
      rw [ih q ((prefixAt_cons_succ pat b t q).mp hp)
        (fun j hj hc => hmin (j + 1) (by omega) ((prefixAt_cons_succ pat b t j).mpr hc))]
      rfl

theorem of_strFind_some (pat s : List Nat) (p : Nat)
    (h : strFind pat s = some p) : prefixAt pat s p := by
  induction s generalizing p with
  | nil =>
    rw [strFind] at h
    split at h
    · next hp =>
      cases h
      exact (prefixAt_zero pat []).mpr (by simp [hp])
    · cases h
  | cons b t ih =>
    rw [strFind] at h
    split at h
    · next hp =>
      cases h
      exact (prefixAt_zero pat (b :: t)).mpr hp
    · rcases Option.map_eq_some'.mp h with ⟨q, hq, rfl⟩
      exact (prefixAt_cons_succ pat b t q).mpr (ih q hq)

theorem prefixAt_decomp {pat s : List Nat} {i : Nat} (h : prefixAt pat s i) :
    s = s.take i ++ pat ++ s.drop (i + pat.length) := by
  have h2 : s.drop i = pat ++ s.drop (i + pat.length) := by
    conv_lhs => rw [← List.take_append_drop pat.length (s.drop i)]
    rw [prefixAt] at h
    rw [h, List.drop_drop, Nat.add_comm]
  conv_lhs => rw [← List.take_append_drop i s, h2]
  rw [List.append_assoc]

/-! ## `lexCmp` is a strict total order -/

theorem lexCmp_eq_iff : ∀ a b : List Nat, lexCmp a b = .eq ↔ a = b
  | [], [] => by simp [lexCmp]
  | [], _ :: _ => by simp [lexCmp]
  | _ :: _, [] => by simp [lexCmp]
  | x :: a, y :: b => by
    rw [lexCmp]
    split_ifs with h1 h2
    · constructor
      · intro h; cases h
      · intro h; injection h with hx _; omega
    · constructor
      · intro h; cases h
      · intro h; injection h with hx _; omega
    · have hxy : x = y := by omega
      subst hxy
      rw [lexCmp_eq_iff a b]
      simp

theorem lexCmp_refl (a : List Nat) : lexCmp a a = .eq := (lexCmp_eq_iff a a).mpr rfl

theorem lexCmp_swap : ∀ a b : List Nat, lexCmp b a = (lexCmp a b).swap
  | [], [] => rfl
  | [], _ :: _ => rfl
  | _ :: _, [] => rfl
  | x :: a, y :: b => by
    rw [lexCmp, lexCmp]
    rcases Nat.lt_trichotomy x y with h | h | h
    · rw [if_neg (show ¬ y < x by omega), if_pos h, if_pos h]; rfl
    · subst h
      simp only [Nat.lt_irrefl, if_false]
      exact lexCmp_swap a b
    · rw [if_pos h, if_neg (show ¬ x < y by omega), if_pos h]; rfl

theorem lexCmp_gt_iff (a b : List Nat) : lexCmp a b = .gt ↔ lexCmp b a = .lt := by
  rw [lexCmp_swap a b]
  cases lexCmp a b <;> simp [Ordering.swap]

theorem lexCmp_cons_lt (x y : Nat) (a b : List Nat) :
    lexCmp (x :: a) (y :: b) = .lt ↔ (x < y ∨ (x = y ∧ lexCmp a b = .lt)) := by
  rw [lexCmp]
  split_ifs with h1 h2
  · simp [h1]
  · constructor
    · intro h; cases h
    · intro h; rcases h with h | ⟨h, _⟩ <;> omega
  · have hxy : x = y := by omega
    subst hxy
    simp

theorem lexCmp_lt_trans :
    ∀ a b c : List Nat, lexCmp a b = .lt → lexCmp b c = .lt → lexCmp a c = .lt
  | [], b, c => fun h1 h2 => by
    cases c with
    | nil =>
      cases b with
      | nil => simp [lexCmp] at h1
      | cons y b => simp [lexCmp] at h2
    | cons z c => simp [lexCmp]
  | x :: a, [], c => fun h1 _ => by simp [lexCmp] at h1
  | x :: a, y :: b, [] => fun _ h2 => by simp [lexCmp] at h2
  | x :: a, y :: b, z :: c => fun h1 h2 => by
    rcases (lexCmp_cons_lt x y a b).mp h1 with h | ⟨rfl, hr⟩ <;>
      rcases (lexCmp_cons_lt _ z _ c).mp h2 with h2x | ⟨rfl, hr2⟩ <;>
      apply (lexCmp_cons_lt _ _ _ _).mpr
    · left; omega
    · left; omega
    · left; omega
    · right; exact ⟨rfl, lexCmp_lt_trans a b c hr hr2⟩

theorem lexCmp_lt_ne {a b : List Nat} (h : lexCmp a b = .lt) : a ≠ b := by
  intro hab
  subst hab
  rw [lexCmp_refl] at h
  cases h

/-! ## `btInsert` and sorted association lists -/

theorem mapLookup_btInsert (m : List (List Nat × List Nat)) (k v k2 : List Nat) :
    mapLookup (btInsert m k v) k2 = if k2 = k then some v else mapLookup m k2 := by
  induction m with
  | nil => simp [btInsert, mapLookup]
  | cons kv0 m ih =>
    obtain ⟨k0, v0⟩ := kv0
    cases hcmp : lexCmp k k0 with
    | lt => simp [btInsert, hcmp, mapLookup]
    | eq =>
      have hk : k = k0 := (lexCmp_eq_iff k k0).mp hcmp
      subst hk
      simp only [btInsert, hcmp, mapLookup]
      by_cases h : k2 = k <;> simp [h, mapLookup]
    | gt =>
      have hne : k ≠ k0 := fun h => by
        subst h; rw [lexCmp_refl] at hcmp; cases hcmp
      rw [btInsert, hcmp]
      show mapLookup ((k0, v0) :: btInsert m k v) k2 = _
      rw [mapLookup, ih]
      by_cases h1 : k2 = k0
      · subst h1
        rw [if_pos rfl, if_neg (fun h => hne h.symm), mapLookup, if_pos rfl]
      · rw [if_neg h1]
        by_cases h2 : k2 = k
        · rw [if_pos h2, if_pos h2]
        · rw [if_neg h2, if_neg h2, mapLookup, if_neg h1]

theorem btInsert_mem {m : List (List Nat × List Nat)} {k v : List Nat}
    {y : List Nat × List Nat} (h : y ∈ btInsert m k v) : y = (k, v) ∨ y ∈ m := by
  induction m with
  | nil => simpa [btInsert] using h
  | cons kv0 m ih =>
    obtain ⟨k0, v0⟩ := kv0
    cases hcmp : lexCmp k k0 <;> rw [btInsert, hcmp] at h
    · rcases List.mem_cons.mp h with rfl | h2
      · exact Or.inl rfl
      · exact Or.inr h2
    · rcases List.mem_cons.mp h with rfl | h2
      · exact Or.inl rfl
      · exact Or.inr (List.mem_cons_of_mem _ h2)
    · rcases List.mem_cons.mp h with rfl | h2
      · exact Or.inr (List.mem_cons_self _ _)
      · rcases ih h2 with h3 | h3
        · exact Or.inl h3
        · exact Or.inr (List.mem_cons_of_mem _ h3)

theorem btInsert_sorted (m : List (List Nat × List Nat)) (k v : List Nat)
    (hm : m.Pairwise (fun x y => lexCmp x.1 y.1 = .lt)) :
    (btInsert m k v).Pairwise (fun x y => lexCmp x.1 y.1 = .lt) := by
  induction m with
  | nil => simp [btInsert]
  | cons kv0 m ih =>
    obtain ⟨k0, v0⟩ := kv0
    rcases List.pairwise_cons.mp hm with ⟨h0, hm2⟩
    cases hcmp : lexCmp k k0 with
    | lt =>
      rw [btInsert, hcmp]
      refine List.pairwise_cons.mpr ⟨?_, hm⟩
      intro y hy
      rcases List.mem_cons.mp hy with rfl | hym
      · exact hcmp
      · exact lexCmp_lt_trans _ _ _ hcmp (h0 y hym)
    | eq =>
      have hk : k = k0 := (lexCmp_eq_iff k k0).mp hcmp
      subst hk
      rw [btInsert, hcmp]
      exact List.pairwise_cons.mpr ⟨h0, hm2⟩
    | gt =>
      rw [btInsert, hcmp]
      refine List.pairwise_cons.mpr ⟨?_, ih hm2⟩
      intro y hy
      rcases btInsert_mem hy with rfl | hym
      · exact (lexCmp_gt_iff k k0).mp hcmp
      · exact h0 y hym

theorem mapLookup_foldl (l : List (List Nat × List Nat))
    (m0 : List (List Nat × List Nat)) (k : List Nat) :
    mapLookup (l.foldl (fun m kv => btInsert m kv.1 kv.2) m0) k =
      match lastLookup l k with
      | some v => some v
      | none => mapLookup m0 k := by
  induction l generalizing m0 with
  | nil => simp [lastLookup]
  | cons kv t ih =>
    rw [List.foldl_cons, ih, lastLookup]
    cases h : lastLookup t k with
    | some v => rfl
    | none =>
      rw [mapLookup_btInsert]
      by_cases hk : k = kv.1
      · rw [if_pos hk, if_pos (hk.symm)]
      · rw [if_neg hk, if_neg (fun h2 => hk h2.symm)]

theorem foldl_sorted (l m0 : List (List Nat × List Nat))
    (h : m0.Pairwise (fun x y => lexCmp x.1 y.1 = .lt)) :
    (l.foldl (fun m kv => btInsert m kv.1 kv.2) m0).Pairwise
      (fun x y => lexCmp x.1 y.1 = .lt) := by
  induction l generalizing m0 with
  | nil => exact h
  | cons kv t ih => exact ih _ (btInsert_sorted _ _ _ h)

theorem mapLookup_isSome_mem {m : List (List Nat × List Nat)} {k : List Nat}
    (h : (mapLookup m k).isSome) : k ∈ m.map Prod.fst := by
  induction m with
  | nil => simp [mapLookup] at h
  | cons kv t ih =>
    rw [mapLookup] at h
    by_cases hk : k = kv.1
    · simp [hk]
    · rw [if_neg hk] at h
      simp [ih h]

theorem sorted_lookup_none {k0 v0 : List Nat} {t : List (List Nat × List Nat)}
    (h : ((k0, v0) :: t).Pairwise (fun x y => lexCmp x.1 y.1 = .lt)) :
    mapLookup t k0 = none := by
  rcases List.pairwise_cons.mp h with ⟨h0, _⟩
  cases hl : mapLookup t k0 with
  | none => rfl
  | some v =>
    have hmem : k0 ∈ t.map Prod.fst := mapLookup_isSome_mem (by simp [hl])
    rcases List.mem_map.mp hmem with ⟨y, hy, hy1⟩
    have := h0 y hy
    rw [hy1] at this
    exact absurd ((lexCmp_eq_iff k0 k0).mpr rfl) (by simp [this])

theorem sorted_lookup_ext :
    ∀ l1 l2 : List (List Nat × List Nat),
      l1.Pairwise (fun x y => lexCmp x.1 y.1 = .lt) →
      l2.Pairwise (fun x y => lexCmp x.1 y.1 = .lt) →
      (∀ k, mapLookup l1 k = mapLookup l2 k) → l1 = l2
  | [], [], _, _, _ => rfl
  | [], (k2, v2) :: t2, _, _, h => by
    have := h k2
    simp [mapLookup] at this
  | (k1, v1) :: t1, [], _, _, h => by
    have := h k1
    simp [mapLookup] at this
  | (k1, v1) :: t1, (k2, v2) :: t2, h1, h2, h => by
    have e1 : mapLookup ((k1, v1) :: t1) k1 = some v1 := by simp [mapLookup]
    have e2 : mapLookup ((k2, v2) :: t2) k2 = some v2 := by simp [mapLookup]
    have hk : k1 = k2 := by
      by_contra hne
      have ha : mapLookup t2 k1 = some v1 := by
        have := (h k1).symm.trans e1
        rwa [mapLookup, if_neg hne] at this
      have hb : mapLookup t1 k2 = some v2 := by
        have := (h k2).trans e2
        rwa [mapLookup, if_neg (fun hx => hne hx.symm)] at this
      have m1 : k1 ∈ t2.map Prod.fst := mapLookup_isSome_mem (by simp [ha])
      have m2 : k2 ∈ t1.map Prod.fst := mapLookup_isSome_mem (by simp [hb])
      rcases List.mem_map.mp m1 with ⟨y1, hy1, hy1e⟩
      rcases List.mem_map.mp m2 with ⟨y2, hy2, hy2e⟩
      have l21 : lexCmp k2 k1 = .lt := by
        have := (List.pairwise_cons.mp h2).1 y1 hy1
        rwa [hy1e] at this
      have l12 : lexCmp k1 k2 = .lt := by
        have := (List.pairwise_cons.mp h1).1 y2 hy2
        rwa [hy2e] at this
      exact absurd (lexCmp_lt_trans _ _ _ l12 l21) (by simp [lexCmp_refl])
    subst hk
    have hv : v1 = v2 := by
      have := (h k1).symm.trans e1
      rw [e2] at this
      exact (Option.some_inj.mp this).symm
    subst hv
    have htail : t1 = t2 := by
      apply sorted_lookup_ext t1 t2 (List.pairwise_cons.mp h1).2 (List.pairwise_cons.mp h2).2
      intro k
      by_cases hk : k = k1
      · subst hk
        rw [sorted_lookup_none h1, sorted_lookup_none h2]
      · have := h k
        rwa [mapLookup, mapLookup, if_neg hk, if_neg hk] at this
    rw [htail]

/-! ## `canonSpec` produces the same sorted map -/

theorem lastLookup_isSome_iff (l : List (List Nat × List Nat)) (k : List Nat) :
    (lastLookup l k).isSome ↔ k ∈ l.map Prod.fst := by
  induction l with
  | nil => simp [lastLookup]
  | cons kv t ih =>
    rw [lastLookup]
    cases h : lastLookup t k with
    | some v =>
      have : k ∈ t.map Prod.fst := ih.mp (by simp [h])
      simp [this]
    | none =>
      have hnot : ¬ k ∈ t.map Prod.fst := by
        intro hm
        have hs := ih.mpr hm
        rw [h] at hs
        simp at hs
      by_cases hk : kv.1 = k
      · simp [hk]
      · simp [hk, hnot, Ne.symm hk]

theorem insSortedKey_mem (k : List Nat) (ks : List (List Nat)) (k2 : List Nat) :
    k2 ∈ insSortedKey k ks ↔ (k2 = k ∨ k2 ∈ ks) := by
  induction ks with
  | nil => simp [insSortedKey]
  | cons k0 t ih =>
    cases hcmp : lexCmp k k0 with
    | lt => rw [insSortedKey, hcmp]; simp only [List.mem_cons]
    | eq =>
      have hk : k = k0 := (lexCmp_eq_iff k k0).mp hcmp
      subst hk
      rw [insSortedKey, hcmp]
      simp only [List.mem_cons]; tauto
    | gt => rw [insSortedKey, hcmp]; simp only [List.mem_cons, ih]; tauto

theorem insSortedKey_sorted (k : List Nat) (ks : List (List Nat))
    (h : ks.Pairwise (fun x y => lexCmp x y = .lt)) :
    (insSortedKey k ks).Pairwise (fun x y => lexCmp x y = .lt) := by
  induction ks with
  | nil => simp [insSortedKey]
  | cons k0 t ih =>
    rcases List.pairwise_cons.mp h with ⟨h0, ht⟩
    cases hcmp : lexCmp k k0 with
    | lt =>
      rw [insSortedKey, hcmp]
      refine List.pairwise_cons.mpr ⟨?_, h⟩
      intro y hy
      rcases List.mem_cons.mp hy with rfl | hym
      · exact hcmp
      · exact lexCmp_lt_trans _ _ _ hcmp (h0 y hym)
    | eq => rw [insSortedKey, hcmp]; exact h
    | gt =>
      rw [insSortedKey, hcmp]
      refine List.pairwise_cons.mpr ⟨?_, ih ht⟩
      intro y hy
      rcases (insSortedKey_mem _ t y).mp hy with h2 | hym
      · subst h2
        exact (lexCmp_gt_iff _ k0).mp hcmp
      · exact h0 y hym

theorem sortedKeys_sorted_aux (l : List (List Nat × List Nat))
    (acc : List (List Nat)) (h : acc.Pairwise (fun x y => lexCmp x y = .lt)) :
    (l.foldl (fun a kv => insSortedKey kv.1 a) acc).Pairwise
      (fun x y => lexCmp x y = .lt) := by
  induction l generalizing acc with
  | nil => exact h
  | cons kv t ih => exact ih _ (insSortedKey_sorted _ _ h)

theorem sortedKeys_sorted (l : List (List Nat × List Nat)) :
    (sortedKeys l).Pairwise (fun x y => lexCmp x y = .lt) :=
  sortedKeys_sorted_aux l [] (by simp)

theorem sortedKeys_mem_aux (l : List (List Nat × List Nat))
    (acc : List (List Nat)) (k : List Nat) :
    k ∈ l.foldl (fun a kv => insSortedKey kv.1 a) acc ↔
      (k ∈ acc ∨ k ∈ l.map Prod.fst) := by
  induction l generalizing acc with
  | nil => simp
  | cons kv t ih =>
    rw [List.foldl_cons, ih]
    rw [insSortedKey_mem]
    simp
    tauto

theorem sortedKeys_mem (l : List (List Nat × List Nat)) (k : List Nat) :
    k ∈ sortedKeys l ↔ k ∈ l.map Prod.fst := by
  rw [sortedKeys, sortedKeys_mem_aux]
  simp

theorem mapLookup_map_keys (ks : List (List Nat)) (g : List Nat → List Nat)
    (k : List Nat) :
    mapLookup (ks.map (fun k0 => (k0, g k0))) k =
      if k ∈ ks then some (g k) else none := by
  induction ks with
  | nil => simp [mapLookup]
  | cons k0 t ih =>
    rw [List.map_cons, mapLookup]
    by_cases hk : k = k0
    · subst hk; simp
    · rw [if_neg hk, ih]
      simp [hk]

theorem canonSpec_lookup (l : List (List Nat × List Nat)) (k : List Nat) :
    mapLookup (canonSpec l) k = lastLookup l k := by
  rw [canonSpec, mapLookup_map_keys]
  by_cases h : k ∈ sortedKeys l
  · rw [if_pos h]
    have hs : (lastLookup l k).isSome :=
      (lastLookup_isSome_iff l k).mpr ((sortedKeys_mem l k).mp h)
    rcases Option.isSome_iff_exists.mp hs with ⟨v, hv⟩
    rw [hv]
    rfl
  · rw [if_neg h]
    cases hl : lastLookup l k with
    | none => rfl
    | some v =>
      exact absurd ((lastLookup_isSome_iff l k).mp (by simp [hl]))
        (fun hm => h ((sortedKeys_mem l k).mpr hm))

theorem canonSpec_sorted (l : List (List Nat × List Nat)) :
    (canonSpec l).Pairwise (fun x y => lexCmp x.1 y.1 = .lt) := by
  rw [canonSpec]
  exact List.Pairwise.map _ (fun a b h => h) (sortedKeys_sorted l)

theorem foldl_eq_canonSpec (l : List (List Nat × List Nat)) :
    l.foldl (fun m kv => btInsert m kv.1 kv.2) [] = canonSpec l := by
  apply sorted_lookup_ext _ _ (foldl_sorted l [] (by simp)) (canonSpec_sorted l)
  intro k
  rw [mapLookup_foldl, canonSpec_lookup]
  cases lastLookup l k <;> rfl

theorem foldl_filter_hash (l : List (List Nat × List Nat))
    (m0 : List (List Nat × List Nat)) :
    l.foldl (fun m kv => if kv.1 ≠ bs "hash" then btInsert m kv.1 kv.2 else m) m0 =
      (l.filter (fun kv => kv.1 ≠ bs "hash")).foldl
        (fun m kv => btInsert m kv.1 kv.2) m0 := by
  induction l generalizing m0 with
  | nil => rfl
  | cons kv t ih =>
    simp only [List.foldl_cons, List.filter_cons]
    by_cases h : kv.1 = bs "hash"
    · rw [if_neg (not_not_intro h), if_neg (by simp [h])]
      exact ih m0
    · rw [if_pos h, if_pos (by simp [h])]
      exact ih _

theorem signDcs_eq_specDcs (s : List Nat) : signDcs s = specDcs s := by
  rw [signDcs, specDcs, foldl_filter_hash, foldl_eq_canonSpec]

/-! ## Inversion facts about `sign` and `parse` -/

theorem sign_ok_inv {s t h : List Nat} (hs : sign s t = .ok h) :
    s ≠ [] ∧ t ≠ [] ∧
      h = hexEncode (hmacSha256 (hmacSha256 (bs "WebAppData") t) (signDcs s)) := by
  rw [sign] at hs
  by_cases h1 : s = []
  · rw [if_pos h1] at hs; cases hs
  · rw [if_neg h1] at hs
    by_cases h2 : t = []
    · rw [if_pos h2] at hs; cases hs
    · rw [if_neg h2] at hs
      exact ⟨h1, h2, (Except.ok.injEq _ _ ▸ hs.symm :)⟩

/-- Every outcome of `parse` is `ok` or an `UnexpectedFormat` error. -/
theorem parse_shape (s : List Nat) :
    (∃ d, parse s = .ok d) ∨ (∃ m, parse s = .error (.UnexpectedFormat m)) := by
  rw [parse]
  split_ifs with h1 h2
  · exact Or.inr ⟨_, rfl⟩
  · exact Or.inr ⟨_, rfl⟩
  · cases h : (jParseDoc (jsonBuild (urlMap s))).bind initDataOfJson with
    | some d => exact Or.inl ⟨d, rfl⟩
    | none => exact Or.inr ⟨_, rfl⟩

/-! ## Facts about the last-occurrence lookup under permutations -/

theorem lastLookup_mem :
    ∀ (l : List (List Nat × List Nat)) (k v : List Nat),
      lastLookup l k = some v → (k, v) ∈ l := by
  intro l
  induction l with
  | nil => intro k v h; cases h
  | cons kv t ih =>
    obtain ⟨k0, v0⟩ := kv
    intro k v h
    rw [lastLookup] at h
    cases h2 : lastLookup t k with
    | some v2 =>
      rw [h2] at h
      cases h
      exact List.mem_cons_of_mem _ (ih k v h2)
    | none =>
      rw [h2] at h
      by_cases hk : k0 = k
      · subst hk
        rw [if_pos rfl] at h
        cases h
        exact List.mem_cons_self _ _
      · rw [if_neg hk] at h; cases h

theorem mem_lastLookup_nodup :
    ∀ (l : List (List Nat × List Nat)) (k v : List Nat),
      (l.map Prod.fst).Nodup → (k, v) ∈ l → lastLookup l k = some v := by
  intro l
  induction l with
  | nil => intro k v _ h; cases h
  | cons kv t ih =>
    intro k v hnd hm
    rw [List.map_cons] at hnd
    rcases List.nodup_cons.mp hnd with ⟨hk0, hndt⟩
    rcases List.mem_cons.mp hm with rfl | hmt
    · have hnone : lastLookup t k = none := by
        cases h2 : lastLookup t k with
        | none => rfl
        | some v2 =>
          exact absurd (List.mem_map_of_mem Prod.fst (lastLookup_mem t k v2 h2)) hk0
      rw [lastLookup, hnone, if_pos rfl]
    · have := ih k v hndt hmt
      rw [lastLookup, this]

theorem lastLookup_perm {l1 l2 : List (List Nat × List Nat)}
    (hp : l1.Perm l2) (hnd : (l1.map Prod.fst).Nodup) (k : List Nat) :
    lastLookup l1 k = lastLookup l2 k := by
  have hnd2 : (l2.map Prod.fst).Nodup := ((hp.map Prod.fst).nodup_iff).mp hnd
  cases h1 : lastLookup l1 k with
  | some v =>
    exact (mem_lastLookup_nodup l2 k v hnd2 (hp.mem_iff.mp (lastLookup_mem l1 k v h1))).symm
  | none =>
    cases h2 : lastLookup l2 k with
    | none => rfl
    | some v =>
      have := mem_lastLookup_nodup l1 k v hnd (hp.mem_iff.mpr (lastLookup_mem l2 k v h2))
      rw [h1] at this
      cases this

theorem not_mem_of_contains_false {s : List Nat} {a : Nat}
    (h : s.contains a = false) : a ∉ s := by
  intro hm
  have h2 := List.elem_eq_true_of_mem hm
  rw [show s.contains a = s.elem a from rfl, h2] at h
  cases h

theorem nodup_filter_keys (l : List (List Nat × List Nat))
    (p : List Nat × List Nat → Bool) (h : (l.map Prod.fst).Nodup) :
    ((l.filter p).map Prod.fst).Nodup :=
  ((@List.filter_sublist _ p l).map Prod.fst).nodup h

theorem foldl_perm_eq {l1 l2 : List (List Nat × List Nat)}
    (hp : l1.Perm l2) (hnd : (l1.map Prod.fst).Nodup) :
    l1.foldl (fun m kv => btInsert m kv.1 kv.2) [] =
      l2.foldl (fun m kv => btInsert m kv.1 kv.2) [] := by
  apply sorted_lookup_ext _ _ (foldl_sorted l1 [] (by simp)) (foldl_sorted l2 [] (by simp))
  intro k
  rw [mapLookup_foldl, mapLookup_foldl, lastLookup_perm hp hnd k]

/-! ## Claim theorems -/

/-- C2: for every non-empty `init_data` and non-empty token, `sign` returns
the lowercase hexadecimal encoding of HMAC-SHA256 with key
`secret = HMAC-SHA256(key = "WebAppData", message = token)` over the
canonical newline-joined `key=value` data-check-string with the `hash`
field removed (`specDcs` states that canonicalization independently of the
fold in the source); the digest string is 64 lowercase hex characters. -/
theorem sign_hmac_spec (s t : List Nat) (hs : s ≠ []) (ht : t ≠ []) :
    sign s t =
      .ok (hexEncode (hmacSha256 (hmacSha256 (bs "WebAppData") t) (specDcs s))) ∧
    (hexEncode (hmacSha256 (hmacSha256 (bs "WebAppData") t) (specDcs s))).length = 64 ∧
    (∀ c ∈ hexEncode (hmacSha256 (hmacSha256 (bs "WebAppData") t) (specDcs s)),
      isLowerHexB c = true) := by
  refine ⟨?_, ?_, ?_⟩
  · rw [sign, if_neg hs, if_neg ht, signDcs_eq_specDcs]
  · rw [hexEncode_length, hmacSha256_length]
  · intro c hc
    rcases hexEncode_range _ (hmacSha256_lt _ _) c hc with h | h <;>
      simp only [isLowerHexB, Bool.or_eq_true, decide_eq_true_eq, Bool.and_eq_true] <;>
      omega

theorem sign_hmac_spec_witness :
    sign (bs "auth_date=1") (bs "T") =
      .ok (hexEncode (hmacSha256 (hmacSha256 (bs "WebAppData") (bs "T"))
        (specDcs (bs "auth_date=1")))) ∧
    (hexEncode (hmacSha256 (hmacSha256 (bs "WebAppData") (bs "T"))
      (specDcs (bs "auth_date=1")))).length = 64 ∧
    (∀ c ∈ hexEncode (hmacSha256 (hmacSha256 (bs "WebAppData") (bs "T"))
      (specDcs (bs "auth_date=1"))), isLowerHexB c = true) :=
  sign_hmac_spec (bs "auth_date=1") (bs "T") (by decide) (by decide)

/-- C3 counterexample: the two query strings `a=1&a=2&x=3` and `a=2&a=1&x=3`
express the same multiset of `key=value` parameters, yet their
data-check-strings (and digests) differ, because the duplicate key `a`
is collapsed last-write-wins. -/
theorem canon_multiset_counterexample :
    (urlPairs (bs "a=1&a=2&x=3")).Perm (urlPairs (bs "a=2&a=1&x=3")) ∧
    signDcs (bs "a=1&a=2&x=3") ≠ signDcs (bs "a=2&a=1&x=3") ∧
    sign (bs "a=1&a=2&x=3") (bs "T") ≠ sign (bs "a=2&a=1&x=3") (bs "T") := by
  refine ⟨?_, by decide, by decide⟩
  have e1 : urlPairs (bs "a=1&a=2&x=3") =
      [(bs "a", bs "1"), (bs "a", bs "2"), (bs "x", bs "3")] := by decide
  have e2 : urlPairs (bs "a=2&a=1&x=3") =
      [(bs "a", bs "2"), (bs "a", bs "1"), (bs "x", bs "3")] := by decide
  rw [e1, e2]
  exact List.Perm.swap _ _ _

/-- C3 (amended): canonicalization is order-invariant for parameter lists
with pairwise-distinct keys: if the decoded pair sequences of two non-empty
query strings are permutations of each other and the keys are duplicate-free,
the data-check-string and hence `sign` under any fixed token agree (with
duplicate keys, last-write-wins makes the result order-dependent). -/
theorem sign_perm_invariant_nodup (s1 s2 t : List Nat) (h1 : s1 ≠ []) (h2 : s2 ≠ [])
    (hperm : (urlPairs s1).Perm (urlPairs s2))
    (hnd : ((urlPairs s1).map Prod.fst).Nodup) :
    signDcs s1 = signDcs s2 ∧ sign s1 t = sign s2 t := by
  have hdcs : signDcs s1 = signDcs s2 := by
    rw [signDcs, signDcs, foldl_filter_hash, foldl_filter_hash,
      foldl_perm_eq (hperm.filter _) (nodup_filter_keys _ _ hnd)]
  refine ⟨hdcs, ?_⟩
  rw [sign, sign, if_neg h1, if_neg h2]
  by_cases ht : t = []
  · rw [if_pos ht, if_pos ht]
  · rw [if_neg ht, if_neg ht, hdcs]

theorem sign_perm_invariant_nodup_witness :
    signDcs (bs "a=1&b=2") = signDcs (bs "b=2&a=1") ∧
    sign (bs "a=1&b=2") (bs "T") = sign (bs "b=2&a=1") (bs "T") := by
  apply sign_perm_invariant_nodup (bs "a=1&b=2") (bs "b=2&a=1") (bs "T")
    (by decide) (by decide) ?_ (by decide)
  have e1 : urlPairs (bs "a=1&b=2") = [(bs "a", bs "1"), (bs "b", bs "2")] := by decide
  have e2 : urlPairs (bs "b=2&a=1") = [(bs "b", bs "2"), (bs "a", bs "1")] := by decide
  rw [e1, e2]
  exact List.Perm.swap _ _ _

/-- C4: `extract_hash` fails with `HashMissing` exactly when the literal
substring `&hash=` is absent; otherwise it splits at the first occurrence
`p`, takes everything after the 6-byte marker as the candidate and
everything before as the base string, and yields `HashInvalid` (never
`HashMissing`) unless the candidate is exactly 64 ASCII hex digits —
including empty, short, long, or non-hex candidates. -/
theorem extract_hash_spec (s : List Nat) :
    ((∀ i < s.length, ¬ prefixAt hashMarker s i) → extractHash s = .error .HashMissing) ∧
    (∀ p, prefixAt hashMarker s p → (∀ j < p, ¬ prefixAt hashMarker s j) →
      extractHash s =
        if (s.drop (p + 6)).all isHexB = true ∧ (s.drop (p + 6)).length = 64 then
          .ok (s.take p, s.drop (p + 6))
        else .error .HashInvalid) := by
  constructor
  · intro h
    have hall : ∀ i, ¬ prefixAt hashMarker s i := by
      intro i hi
      by_cases hlt : i < s.length
      · exact h i hlt hi
      · rw [prefixAt, List.drop_eq_nil_of_le (by omega)] at hi
        exact absurd hi (by decide)
    rw [extractHash, strFind_eq_none _ _ hall]
  · intro p hp hmin
    rw [extractHash, strFind_eq_some _ _ p hp hmin]
    show (if !(((s.drop p).drop 6).all isHexB) || ((s.drop p).drop 6).length ≠ 64
          then Except.error IDError.HashInvalid
          else Except.ok (s.take p, (s.drop p).drop 6)) = _
    have hd : (s.drop p).drop 6 = s.drop (p + 6) := by
      rw [List.drop_drop, Nat.add_comm]
    rw [hd]
    by_cases hx : (s.drop (p + 6)).all isHexB = true ∧ (s.drop (p + 6)).length = 64
    · rw [if_neg (by simp [hx.1, hx.2]), if_pos hx]
    · rw [if_pos ?side, if_neg hx]
      case side =>
        rw [Bool.or_eq_true]
        rcases not_and_or.mp hx with h | h
        · left
          rw [Bool.not_eq_true']
          exact Bool.eq_false_iff.mpr h
        · right
          exact decide_eq_true h

theorem extract_hash_spec_witness :
    extractHash (bs "q=1&hash=aaaaaaaaaaaaaaaaaaaaaaaaaaaaaaaaaaaaaaaaaaaaaaaaaaaaaaaaaaaaaaaa") =
      .ok (bs "q=1",
        bs "aaaaaaaaaaaaaaaaaaaaaaaaaaaaaaaaaaaaaaaaaaaaaaaaaaaaaaaaaaaaaaaa") ∧
    extractHash (bs "q=1&hash=zz") = .error .HashInvalid ∧
    extractHash (bs "q=1") = .error .HashMissing := by
  refine ⟨?_, ?_, ?_⟩
  · have h := (extract_hash_spec
      (bs "q=1&hash=aaaaaaaaaaaaaaaaaaaaaaaaaaaaaaaaaaaaaaaaaaaaaaaaaaaaaaaaaaaaaaaa")).2
      3 (by decide) (by decide)
    rw [h, if_pos (by decide)]
    decide
  · have h := (extract_hash_spec (bs "q=1&hash=zz")).2 3 (by decide) (by decide)
    rw [h, if_neg (by decide)]
  · exact (extract_hash_spec (bs "q=1")).1 (by decide)

/-- C8 counterexample: `sign` performs no sanity gate beyond non-emptiness —
it succeeds on a semicolon-containing input and on an input with no `=`,
where the claim demands a `MalformedInput` failure before decoding. -/
theorem sanity_gate_counterexample :
    (bs "a;b=1").contains 59 = true ∧ (sign (bs "a;b=1") (bs "T")).isOk = true ∧
    (bs "abc").contains 61 = false ∧ (sign (bs "abc") (bs "T")).isOk = true := by
  refine ⟨by decide, by decide, by decide, by decide⟩

/-- C8 (amended): the actual gates are: `sign` rejects only an empty
`init_data` (or empty token) and otherwise always computes a digest;
`validate` rejects empty or `=`-free input with `UnexpectedFormat` before
hash extraction; the empty/semicolon/`=`-free gate of the claim lives in
the decoder `parse`, which runs only after hash extraction and digest
comparison. -/
theorem sanity_gate_actual :
    (∀ t, sign [] t = .error (.UnexpectedFormat (bs "init_data is empty"))) ∧
    (∀ s t, s ≠ [] → t ≠ [] → (sign s t).isOk = true) ∧
    (∀ now s t e, (s = [] ∨ s.contains 61 = false) →
      validate now s t e =
        .error (.UnexpectedFormat (bs "init_data is empty or malformed"))) ∧
    (∀ s, s ≠ [] → (s.contains 59 = true ∨ s.contains 61 = false) →
      parse s = .error (.UnexpectedFormat (bs "Invalid query string format"))) := by
  refine ⟨?_, ?_, ?_, ?_⟩
  · intro t
    rw [sign, if_pos rfl]
  · intro s t hs ht
    rw [sign, if_neg hs, if_neg ht]
    rfl
  · intro now s t e hg
    rw [validate, if_pos ?cond]
    case cond =>
      rcases hg with rfl | hgc
      · simp
      · simp [not_mem_of_contains_false hgc]
  · intro s hs hg
    rw [parse, if_neg hs, if_pos ?cond]
    case cond =>
      rcases hg with h | h
      · have := List.mem_of_elem_eq_true (show s.elem 59 = true from h)
        simp [this]
      · simp [not_mem_of_contains_false h]

theorem sanity_gate_actual_witness :
    validate 0 (bs "abc") (bs "T") none =
      .error (.UnexpectedFormat (bs "init_data is empty or malformed")) ∧
    parse (bs "a;b=1") = .error (.UnexpectedFormat (bs "Invalid query string format")) ∧
    (sign (bs "a=1") (bs "T")).isOk = true :=
  ⟨sanity_gate_actual.2.2.1 0 (bs "abc") (bs "T") none (Or.inr (by decide)),
   sanity_gate_actual.2.2.2 (bs "a;b=1") (by decide) (Or.inl (by decide)),
   sanity_gate_actual.2.1 (bs "a=1") (bs "T") (by decide) (by decide)⟩

/-- C9: whenever the first occurrence of `&hash=` is followed by more than
64 bytes (for example a trailing `&signature=...` or any other parameter),
the candidate token is the entire remainder, the 64-hex check fails, and
first-party `validate` returns `HashInvalid`. -/
theorem hash_must_be_final (now : Nat) (s t : List Nat) (e : Option Nat) (p : Nat)
    (hfind : strFind hashMarker s = some p) (hlen : 64 < s.length - (p + 6)) :
    validate now s t e = .error .HashInvalid := by
  have hp := of_strFind_some _ _ _ hfind
  have hmem : (61 : Nat) ∈ s := by
    rw [prefixAt_decomp hp]
    refine List.mem_append.mpr (Or.inl (List.mem_append.mpr (Or.inr ?_)))
    decide
  have h61 : s.contains 61 = true := by
    simpa using List.elem_eq_true_of_mem hmem
  have hne : s ≠ [] := fun h => by
    subst h
    simp at hmem
  have hex : extractHash s = .error .HashInvalid := by
    rw [extractHash, hfind]
    show (if !(((s.drop p).drop 6).all isHexB) || ((s.drop p).drop 6).length ≠ 64
          then Except.error IDError.HashInvalid
          else Except.ok (s.take p, (s.drop p).drop 6)) = _
    have hlen2 : ((s.drop p).drop 6).length ≠ 64 := by
      rw [List.drop_drop, Nat.add_comm, List.length_drop]
      omega
    rw [if_pos ?side]
    case side =>
      rw [Bool.or_eq_true]
      right
      exact decide_eq_true hlen2
  rw [validate, if_neg (by simp [hne, hmem]), hex]

theorem hash_must_be_final_witness :
    validate 0
      (bs "a=1&hash=aaaaaaaaaaaaaaaaaaaaaaaaaaaaaaaaaaaaaaaaaaaaaaaaaaaaaaaaaaaaaaaa&signature=x")
      (bs "T") none = .error .HashInvalid :=
  hash_must_be_final 0 _ _ none 3 (by decide) (by decide)

/-- C10: an empty token is rejected — `sign(init_data, "")` always fails
with an `UnexpectedFormat` error before any key derivation (the empty
`init_data` check fires first on empty input, also an `UnexpectedFormat`),
and consequently first-party `validate` with an empty token never succeeds
on any input. -/
theorem empty_token_rejected :
    (∀ s, ∃ m, sign s [] = .error (.UnexpectedFormat m)) ∧
    (∀ now s e, (validate now s [] e).isOk = false) := by
  have hsign : ∀ s : List Nat, ∃ m, sign s [] = .error (.UnexpectedFormat m) := by
    intro s
    by_cases h : s = []
    · exact ⟨_, by rw [sign, if_pos h]⟩
    · exact ⟨_, by rw [sign, if_neg h, if_pos rfl]⟩
  refine ⟨hsign, ?_⟩
  intro now s e
  rw [validate]
  split
  · rfl
  · cases hx : extractHash s with
    | error err => rfl
    | ok pr =>
      obtain ⟨base, hsh⟩ := pr
      obtain ⟨m, hm⟩ := hsign base
      dsimp only
      rw [hm]
      rfl

/-- C5 counterexample: with `auth_date = u64::MAX` on a well-signed input,
the `u64` addition `auth_date + expires_in` wraps modulo `2 ^ 64`, so
`validate` returns `Expired` although `auth_date + window` is mathematically
far larger than the current time — the claimed "exactly when
`auth_date + window < now`" fails at the overflow boundary. -/
theorem expiry_wrap_counterexample :
    validate 100000 cexFullWrap cexToken (some 86400) = .error .Expired ∧
    (parse cexFullWrap).toOption.map InitData.authDate =
      some 18446744073709551615 ∧
    ¬ (18446744073709551615 + 86400 < 100000) := by
  refine ⟨by decide, by decide, by decide⟩

/-- C5 (amended): on inputs whose non-expiry pipeline succeeds, omitting
the window equals passing 86400; a window of 0 disables the check; and for
a positive window `validate` returns `Expired` exactly when
`(auth_date + window) mod 2 ^ 64` is strictly below the current time (the
claim's reading without the wrap holds whenever the addition does not
overflow, in particular at `auth_date = now - window - 1`). -/
theorem expiry_semantics (now : Nat) (s t : List Nat) (d : InitData)
    (h0 : validate now s t (some 0) = .ok d) :
    validate now s t none = validate now s t (some 86400) ∧
    (∀ w, 0 < w →
      validate now s t (some w) =
        if (d.authDate + w) % 18446744073709551616 < now then .error .Expired
        else .ok d) ∧
    (∀ w, 0 < w → w + 1 ≤ now → now ≤ 18446744073709551616 →
      d.authDate = now - w - 1 → validate now s t (some w) = .error .Expired) := by
  rw [validate] at h0
  by_cases g : (decide (s = []) || !s.contains 61) = true
  · rw [if_pos g] at h0; cases h0
  · rw [if_neg g] at h0
    cases hx : extractHash s with
    | error err => rw [hx] at h0; cases h0
    | ok pr =>
      obtain ⟨base, hsh⟩ := pr
      rw [hx] at h0
      dsimp only at h0
      cases hs : sign base t with
      | error err => rw [hs] at h0; cases h0
      | ok expected =>
        rw [hs] at h0
        dsimp only at h0
        by_cases hhe : hsh ≠ expected
        · rw [if_pos hhe] at h0; cases h0
        · rw [if_neg hhe] at h0
          cases hp : parse s with
          | error err => rw [hp] at h0; cases h0
          | ok data =>
            rw [hp] at h0
            dsimp only at h0
            rw [if_neg (by simp)] at h0
            cases h0
            have hw : ∀ w : Nat, validate now s t (some w) =
                if 0 < w then
                  (if (d.authDate + w) % 18446744073709551616 < now then
                    Except.error IDError.Expired
                  else Except.ok d)
                else Except.ok d := by
              intro w
              rw [validate, if_neg g, hx]
              dsimp only
              rw [hs]
              dsimp only
              rw [if_neg hhe, hp]
              rfl
            refine ⟨rfl, ?_, ?_⟩
            · intro w hpos
              rw [hw w, if_pos hpos]
            · intro w hpos hwn hnm had
              rw [hw w, if_pos hpos, if_pos ?lt]
              case lt =>
                rw [had, Nat.mod_eq_of_lt (by omega)]
                omega

theorem expiry_semantics_witness :
    (validate 5 cexFullP cexToken (some 0)).isOk = true ∧
    validate 5 cexFullP cexToken none = validate 5 cexFullP cexToken (some 86400) := by
  have hok : (validate 5 cexFullP cexToken (some 0)).isOk = true := by decide
  refine ⟨hok, ?_⟩
  cases hv : validate 5 cexFullP cexToken (some 0) with
  | error e => rw [hv] at hok; cases hok
  | ok d => exact (expiry_semantics 5 cexFullP cexToken d hv).1

/-! ## Third-party expiry ordering (C7) -/

theorem gate_iff (s : List Nat) :
    (decide (s = []) || !s.contains 61) = true ↔ (s = [] ∨ s.contains 61 = false) := by
  cases h : s.contains 61 <;> by_cases hs : s = [] <;> simp [hs, h]

/-- The post-expiry stage never produces `Expired`: its own failures are all
`SignatureInvalid`, and the decoder only fails with `UnexpectedFormat`. -/
theorem tpVerifyAndParse_ne_expired (keyOk : List Nat → Bool)
    (verify : List Nat → List Nat → List Nat → Bool)
    (s : List Nat) (botId : Int) (isTest : Bool) (sig : List Nat) :
    tpVerifyAndParse keyOk verify s botId isTest sig ≠ .error .Expired := by
  rw [tpVerifyAndParse]
  split
  · simp
  · split
    · simp
    · split
      · simp
      · split
        · simp
        · split
          · simp
          · rcases parse_shape s with ⟨dd, hd⟩ | ⟨m, hm⟩
            · rw [hd]
              simp
            · rw [hm]
              simp

/-- C7 counterexample: with a verifier that rejects everything (so the
signature can never verify), the validator still returns `Expired` for a
stale `auth_date`: expiration is checked before signature verification,
contradicting "never returns Expired unless the signature verified". -/
theorem tp_expiry_before_verify_counterexample :
    validateThirdPartyWithSignature (fun _ => true) (fun _ _ _ => false) 1000000
      (bs "auth_date=1&signature=AA") 7 (some 86400) false = .error .Expired := by
  decide

/-- C7 (amended): the signature-based validator checks expiration before any
signature work; it returns `Expired` exactly when the input passes the
structural gate, a `signature` parameter is present, a window was supplied,
the last `auth_date` parses as `u64`, and `(auth_date + window) mod 2 ^ 64`
is below the current time — independent of the verifier and of signature
validity. -/
theorem tp_expired_iff (keyOk : List Nat → Bool)
    (verify : List Nat → List Nat → List Nat → Bool)
    (now : Nat) (s : List Nat) (botId : Int) (e : Option Nat) (isTest : Bool) :
    validateThirdPartyWithSignature keyOk verify now s botId e isTest =
        .error .Expired ↔
      ((s ≠ [] ∧ s.contains 61 = true) ∧
       (tpScan (urlPairs s)).1.isSome = true ∧
       ∃ ea a, e = some ea ∧ (tpScan (urlPairs s)).2.2 = some a ∧
         (a + ea) % 18446744073709551616 < now) := by
  rw [validateThirdPartyWithSignature]
  by_cases g : (decide (s = []) || !s.contains 61) = true
  · rw [if_pos g]
    apply iff_of_false (by simp)
    rintro ⟨⟨hne, hc⟩, _⟩
    rcases (gate_iff s).mp g with h | h
    · exact hne h
    · rw [hc] at h
      cases h
  · rw [if_neg g]
    have hgate : s ≠ [] ∧ s.contains 61 = true := by
      cases hc : s.contains 61 with
      | false => exact absurd ((gate_iff s).mpr (Or.inr hc)) g
      | true => exact ⟨fun hs => absurd ((gate_iff s).mpr (Or.inl hs)) g, rfl⟩
    dsimp only
    cases h1 : (tpScan (urlPairs s)).1 with
    | none =>
      apply iff_of_false (by simp)
      rintro ⟨_, hsome, _⟩
      cases hsome
    | some sig =>
      dsimp only
      rcases e with _ | ea
      · rw [if_neg (by simp)]
        apply iff_of_false (tpVerifyAndParse_ne_expired _ _ _ _ _ _)
        rintro ⟨_, _, ea', a', he, _, _⟩
        cases he
      · cases h2 : (tpScan (urlPairs s)).2.2 with
        | none =>
          rw [if_neg (by simp)]
          apply iff_of_false (tpVerifyAndParse_ne_expired _ _ _ _ _ _)
          rintro ⟨_, _, ea', a', he, ha, _⟩
          cases ha
        | some a =>
          by_cases hlt : (a + ea) % 18446744073709551616 < now
          · rw [if_pos (by simpa using hlt)]
            apply iff_of_true rfl
            exact ⟨hgate, rfl, ea, a, rfl, rfl, hlt⟩
          · rw [if_neg (by simpa using hlt)]
            apply iff_of_false (tpVerifyAndParse_ne_expired _ _ _ _ _ _)
            rintro ⟨_, _, ea', a', he, ha, hlt'⟩
            cases he
            cases ha
            exact hlt hlt'

theorem tp_expired_iff_witness :
    validateThirdPartyWithSignature (fun _ => true) (fun _ _ _ => true) 1000000
      (bs "auth_date=1&signature=AA") 7 (some 86400) false = .error .Expired := by
  apply (tp_expired_iff (fun _ => true) (fun _ _ _ => true) 1000000
    (bs "auth_date=1&signature=AA") 7 (some 86400) false).mpr
  exact ⟨⟨by decide, by decide⟩, by decide, 86400, 1, rfl, by decide, by decide⟩

/-! ## The third-party message: stable sort properties (C6) -/

theorem lexCmp_not_lt_iff (a b : List Nat) :
    lexCmp a b ≠ .lt ↔ (a = b ∨ lexCmp b a = .lt) := by
  cases h : lexCmp a b with
  | lt =>
    apply iff_of_false (fun hn => hn rfl)
    rintro (rfl | hba)
    · rw [lexCmp_refl] at h
      cases h
    · rw [← lexCmp_gt_iff, h] at hba
      cases hba
  | eq => exact iff_of_true (by simp) (Or.inl ((lexCmp_eq_iff a b).mp h))
  | gt => exact iff_of_true (by simp) (Or.inr ((lexCmp_gt_iff a b).mp h))

theorem insKeyStable_mem {acc : List (List Nat × List Nat)}
    {p y : List Nat × List Nat} (h : y ∈ insKeyStable acc p) : y = p ∨ y ∈ acc := by
  induction acc with
  | nil => simpa [insKeyStable] using h
  | cons q rest ih =>
    rw [insKeyStable] at h
    by_cases hc : lexCmp p.1 q.1 = .lt
    · rw [if_pos hc] at h
      rcases List.mem_cons.mp h with rfl | h2
      · exact Or.inl rfl
      · exact Or.inr h2
    · rw [if_neg hc] at h
      rcases List.mem_cons.mp h with rfl | h2
      · exact Or.inr (List.mem_cons_self _ _)
      · rcases ih h2 with h3 | h3
        · exact Or.inl h3
        · exact Or.inr (List.mem_cons_of_mem _ h3)

theorem insKeyStable_perm (acc : List (List Nat × List Nat))
    (p : List Nat × List Nat) : (insKeyStable acc p).Perm (p :: acc) := by
  induction acc with
  | nil => exact List.Perm.refl _
  | cons q rest ih =>
    rw [insKeyStable]
    by_cases hc : lexCmp p.1 q.1 = .lt
    · rw [if_pos hc]
    · rw [if_neg hc]
      exact (ih.cons q).trans (List.Perm.swap p q rest)

theorem stableSort_perm_aux :
    ∀ (l acc : List (List Nat × List Nat)),
      (l.foldl insKeyStable acc).Perm (acc ++ l) := by
  intro l
  induction l with
  | nil => intro acc; simp
  | cons x t ih =>
    intro acc
    rw [List.foldl_cons]
    exact ((ih (insKeyStable acc x)).trans
      (((insKeyStable_perm acc x).append_right t).trans List.perm_middle.symm))

theorem stableSortByKey_perm (l : List (List Nat × List Nat)) :
    (stableSortByKey l).Perm l := by
  simpa using stableSort_perm_aux l []

theorem insKeyStable_sorted (acc : List (List Nat × List Nat))
    (p : List Nat × List Nat)
    (h : acc.Pairwise (fun x y => lexCmp y.1 x.1 ≠ .lt)) :
    (insKeyStable acc p).Pairwise (fun x y => lexCmp y.1 x.1 ≠ .lt) := by
  induction acc with
  | nil => simp [insKeyStable]
  | cons q rest ih =>
    rcases List.pairwise_cons.mp h with ⟨hq, hrest⟩
    rw [insKeyStable]
    by_cases hc : lexCmp p.1 q.1 = .lt
    · rw [if_pos hc]
      refine List.pairwise_cons.mpr ⟨?_, h⟩
      intro y hy
      rcases List.mem_cons.mp hy with rfl | hym
      · rw [lexCmp_swap p.1 y.1, hc]
        decide
      · intro hyl
        exact hq y hym (lexCmp_lt_trans _ _ _ hyl hc)
    · rw [if_neg hc]
      refine List.pairwise_cons.mpr ⟨?_, ih hrest⟩
      intro y hy
      rcases insKeyStable_mem hy with rfl | hym
      · exact hc
      · exact hq y hym

theorem stableSort_sorted_aux :
    ∀ (l acc : List (List Nat × List Nat)),
      acc.Pairwise (fun x y => lexCmp y.1 x.1 ≠ .lt) →
      (l.foldl insKeyStable acc).Pairwise (fun x y => lexCmp y.1 x.1 ≠ .lt) := by
  intro l
  induction l with
  | nil => intro acc h; exact h
  | cons x t ih =>
    intro acc h
    rw [List.foldl_cons]
    exact ih _ (insKeyStable_sorted acc x h)

theorem stableSortByKey_sorted (l : List (List Nat × List Nat)) :
    (stableSortByKey l).Pairwise (fun x y => lexCmp y.1 x.1 ≠ .lt) :=
  stableSort_sorted_aux l [] (by simp)

theorem insKeyStable_filter (acc : List (List Nat × List Nat))
    (p : List Nat × List Nat) (k : List Nat)
    (hs : acc.Pairwise (fun x y => lexCmp y.1 x.1 ≠ .lt)) :
    (insKeyStable acc p).filter (fun q => q.1 = k) =
      if p.1 = k then acc.filter (fun q => q.1 = k) ++ [p]
      else acc.filter (fun q => q.1 = k) := by
  induction acc with
  | nil => by_cases hp : p.1 = k <;> simp [insKeyStable, hp]
  | cons q rest ih =>
    rcases List.pairwise_cons.mp hs with ⟨hq, hrest⟩
    rw [insKeyStable]
    by_cases hc : lexCmp p.1 q.1 = .lt
    · rw [if_pos hc]
      by_cases hp : p.1 = k
      · rw [if_pos hp]
        have hfe : (q :: rest).filter (fun q2 => q2.1 = k) = [] := by
          rw [List.filter_eq_nil_iff]
          intro y hy
          simp only [decide_eq_true_eq]
          rcases List.mem_cons.mp hy with rfl | hym
          · intro hyk
            exact lexCmp_lt_ne hc (by rw [hp]; exact hyk.symm)
          · intro hyk
            exact hq y hym (by rw [hyk, ← hp]; exact hc)
        rw [List.filter_cons_of_pos (by simp [hp]), hfe]
        simp
      · rw [if_neg hp, List.filter_cons_of_neg (by simp [hp])]
    · rw [if_neg hc]
      by_cases hqk : q.1 = k
      · rw [List.filter_cons_of_pos (by simp [hqk]), ih hrest,
          List.filter_cons_of_pos (by simp [hqk])]
        by_cases hp : p.1 = k
        · rw [if_pos hp, if_pos hp]
          rfl
        · rw [if_neg hp, if_neg hp]
      · rw [List.filter_cons_of_neg (by simp [hqk]), ih hrest,
          List.filter_cons_of_neg (by simp [hqk])]

theorem stableSort_filter_aux (k : List Nat) :
    ∀ (l acc : List (List Nat × List Nat)),
      acc.Pairwise (fun x y => lexCmp y.1 x.1 ≠ .lt) →
      (l.foldl insKeyStable acc).filter (fun q => q.1 = k) =
        acc.filter (fun q => q.1 = k) ++ l.filter (fun q => q.1 = k) := by
  intro l
  induction l with
  | nil => intro acc _; simp
  | cons x t ih =>
    intro acc hacc
    rw [List.foldl_cons, ih _ (insKeyStable_sorted acc x hacc),
      insKeyStable_filter acc x k hacc]
    by_cases hx : x.1 = k
    · rw [if_pos hx, List.filter_cons_of_pos (by simp [hx]), List.append_assoc]
      rfl
    · rw [if_neg hx, List.filter_cons_of_neg (by simp [hx])]

theorem stableSortByKey_filter (l : List (List Nat × List Nat)) (k : List Nat) :
    (stableSortByKey l).filter (fun q => q.1 = k) = l.filter (fun q => q.1 = k) := by
  simpa using stableSort_filter_aux k l [] (by simp)

/-- The scan loop keeps exactly the non-`signature`, non-`hash` pairs, in
physical order. -/
theorem tpFiltered_eq (s : List Nat) :
    tpFiltered s =
      (urlPairs s).filter (fun kv => kv.1 ≠ bs "signature" && kv.1 ≠ bs "hash") := by
  rw [tpFiltered, tpScan]
  have main : ∀ (pairs : List (List Nat × List Nat))
      (st : Option (List Nat) × List (List Nat × List Nat) × Option Nat),
      (pairs.foldl (fun st kv =>
        if kv.1 = bs "signature" then (some kv.2, st.2.1, st.2.2)
        else if kv.1 = bs "auth_date" then (st.1, st.2.1 ++ [kv], parseU64 kv.2)
        else if kv.1 = bs "hash" then st
        else (st.1, st.2.1 ++ [kv], st.2.2)) st).2.1 =
      st.2.1 ++ pairs.filter (fun kv => kv.1 ≠ bs "signature" && kv.1 ≠ bs "hash") := by
    intro pairs
    induction pairs with
    | nil => intro st; simp
    | cons kv t ih =>
      intro st
      rw [List.foldl_cons]
      by_cases h1 : kv.1 = bs "signature"
      · rw [if_pos h1, ih, List.filter_cons_of_neg (by simp [h1])]
      · rw [if_neg h1]
        by_cases h2 : kv.1 = bs "auth_date"
        · rw [if_pos h2, ih, List.filter_cons_of_pos (by simp [h1, h2]; decide)]
          simp
        · rw [if_neg h2]
          by_cases h3 : kv.1 = bs "hash"
          · rw [if_pos h3, ih, List.filter_cons_of_neg (by simp [h3])]
          · rw [if_neg h3, ih, List.filter_cons_of_pos (by simp [h1, h3])]
            simp
  rw [main]
  rfl

/-- C6 counterexample: for `a=2&a=1&auth_date=5&signature=X` with bot id 7
the verified message keeps both duplicate `a` pairs in their original order
(`7:WebAppData\na=2\na=1\nauth_date=5`), while the claim's collapsed form
(`7:WebAppData\na=1\nauth_date=5`) differs. -/
theorem tp_message_collapsed_counterexample :
    tpMessage 7 (bs "a=2&a=1&auth_date=5&signature=X") ≠
      tpMessageCollapsed 7 (bs "a=2&a=1&auth_date=5&signature=X") := by
  decide

/-- C6 (amended): the verified message is the bot-id prefix followed by the
newline-joined `key=value` lines of a stable key-sort of the percent-decoded
pairs with all `signature` and `hash` pairs excluded: the line list is a
permutation of those pairs, weakly sorted by key in ascending byte order,
with pairs of equal key retained (not collapsed) in their physical order. -/
theorem tp_message_characterization (botId : Int) (s : List Nat) :
    ∃ L : List (List Nat × List Nat), tpMessage botId s =
        intDec botId ++ bs ":WebAppData" ++ 10 ::
          List.intercalate [10] (L.map (fun kv => kv.1 ++ 61 :: kv.2)) ∧
      L.Perm ((urlPairs s).filter
        (fun kv => kv.1 ≠ bs "signature" && kv.1 ≠ bs "hash")) ∧
      L.Pairwise (fun x y => lexCmp y.1 x.1 ≠ .lt) ∧
      (∀ k, L.filter (fun q => q.1 = k) =
        ((urlPairs s).filter
          (fun kv => kv.1 ≠ bs "signature" && kv.1 ≠ bs "hash")).filter
          (fun q => q.1 = k)) := by
  refine ⟨stableSortByKey (tpFiltered s), ?_, ?_, ?_, ?_⟩
  · rfl
  · rw [← tpFiltered_eq]
    exact stableSortByKey_perm _
  · exact stableSortByKey_sorted _
  · intro k
    rw [← tpFiltered_eq]
    exact stableSortByKey_filter _ _

/-! ## Round trip (C1): auxiliary facts -/

theorem takeWhile_append_all {p : Nat → Bool} {x : List Nat} (y : List Nat)
    (h : ∀ c ∈ x, p c = true) : (x ++ y).takeWhile p = x ++ y.takeWhile p := by
  induction x with
  | nil => rfl
  | cons c t ih =>
    rw [List.cons_append, List.takeWhile_cons, if_pos (h c (by simp)),
      ih (fun c2 hc2 => h c2 (by simp [hc2])), List.cons_append]

theorem splitAmp_head (l : List Nat) :
    ∃ ss, splitAmp l = (l.takeWhile (fun c => c ≠ 38)) :: ss := by
  induction l with
  | nil => exact ⟨[], rfl⟩
  | cons c t ih =>
    by_cases hc : c = 38
    · subst hc
      rw [splitAmp_cons_sep, List.takeWhile_cons]
      exact ⟨splitAmp t, by simp⟩
    · obtain ⟨ss, hss⟩ := ih
      rw [splitAmp_cons_ne c t hc, hss, List.takeWhile_cons, if_pos (by simp [hc])]
      exact ⟨ss, rfl⟩

/-- Properties of the bytes of a digest string produced by `sign`. -/
theorem sign_digest_bytes {s t h : List Nat} (hs : sign s t = .ok h) :
    h.length = 64 ∧ ∀ c ∈ h, ((48 ≤ c ∧ c ≤ 57) ∨ (97 ≤ c ∧ c ≤ 102)) := by
  obtain ⟨-, -, rfl⟩ := sign_ok_inv hs
  exact ⟨by rw [hexEncode_length, hmacSha256_length],
    hexEncode_range _ (hmacSha256_lt _ _)⟩

/-- Any occurrence of the literal `&hash=` inside a query string produces a
decoded parameter with key `hash`. -/
theorem hash_key_of_occurrence (P : List Nat) (i : Nat)
    (hocc : prefixAt hashMarker P i) :
    ∃ kv ∈ urlPairs P, kv.1 = bs "hash" := by
  have hdec := prefixAt_decomp hocc
  set a := P.take i with ha
  set b := P.drop (i + hashMarker.length) with hb
  have hm : hashMarker = 38 :: bs "hash=" := by decide
  have hP2 : P = a ++ 38 :: (bs "hash=" ++ b) := by
    rw [hdec, hm]
    simp [List.append_assoc]
  have hsplit : splitAmp P = splitAmp a ++ splitAmp (bs "hash=" ++ b) := by
    rw [hP2, splitAmp_append]
  obtain ⟨ss, hss⟩ := splitAmp_head (bs "hash=" ++ b)
  have hseg : (bs "hash=" ++ b).takeWhile (fun c => c ≠ 38) =
      bs "hash=" ++ b.takeWhile (fun c => c ≠ 38) :=
    takeWhile_append_all _ (by decide)
  set seg := bs "hash=" ++ b.takeWhile (fun c => c ≠ 38) with hsegdef
  have hmemsplit : seg ∈ splitAmp P := by
    rw [hsplit, hss, hseg]
    exact List.mem_append.mpr (Or.inr (List.mem_cons_self _ _))
  have hsegne : seg ≠ [] := by
    rw [hsegdef]
    simp [bs, utf8Enc]
  refine ⟨segPair seg, List.mem_map_of_mem segPair
    (List.mem_filter.mpr ⟨hmemsplit, decide_eq_true hsegne⟩), ?_⟩
  show urlDecode (seg.takeWhile (fun c => c ≠ 61)) = bs "hash"
  have h1 : seg = bs "hash" ++ (61 :: b.takeWhile (fun c => c ≠ 38)) := by
    rw [hsegdef, show bs "hash=" = bs "hash" ++ [61] by decide, List.append_assoc]
    rfl
  rw [h1, takeWhile_append_all _ (by decide), List.takeWhile_cons, if_neg (by decide),
    List.append_nil]
  decide

/-- If `P` itself contains no occurrence of `&hash=`, the first occurrence
in `P ++ "&hash=" ++ h` is exactly at position `|P|`. -/
theorem strFind_append_marker (P h : List Nat)
    (hno : ∀ i, ¬ prefixAt hashMarker P i) :
    strFind hashMarker (P ++ hashMarker ++ h) = some P.length := by
  have hml : hashMarker.length = 6 := rfl
  apply strFind_eq_some
  · rw [prefixAt, List.append_assoc, List.drop_left, List.take_left]
  · intro j hj hpre
    rw [prefixAt, List.append_assoc,
      List.drop_append_of_le_length (by omega)] at hpre
    by_cases hle : j + 6 ≤ P.length
    · apply hno j
      rw [prefixAt]
      rwa [List.take_append_of_le_length
        (by rw [hml, List.length_drop]; omega)] at hpre
    · rw [List.take_append_eq_append_take,
        List.take_of_length_le (by rw [hml, List.length_drop]; omega)] at hpre
      have h38 : hashMarker.getD (P.drop j).length 0 = 38 := by
        conv_lhs => rw [← hpre]
        rw [List.getD_append_right _ _ _ _ le_rfl, Nat.sub_self]
        have hk1 : 1 ≤ hashMarker.length - (P.drop j).length := by
          rw [hml, List.length_drop]
          omega
        rcases hk : hashMarker.length - (P.drop j).length with _ | k
        · omega
        · rw [show hashMarker ++ h = 38 :: (bs "hash=" ++ h) by rfl,
            List.take_succ_cons]
          rfl
      have hr : (P.drop j).length = 1 ∨ (P.drop j).length = 2 ∨
          (P.drop j).length = 3 ∨ (P.drop j).length = 4 ∨
          (P.drop j).length = 5 := by
        rw [List.length_drop]
        omega
      rcases hr with hr | hr | hr | hr | hr <;> rw [hr] at h38 <;>
        exact absurd h38 (by decide)

/-- Appending `&hash=<h>` to `P` appends exactly one decoded pair. -/
theorem urlPairs_append_hash (P h : List Nat)
    (h38 : ∀ c ∈ h, c ≠ 38)
    (hdec : urlDecode h = h) :
    urlPairs (P ++ hashMarker ++ h) = urlPairs P ++ [(bs "hash", h)] := by
  have hfull : P ++ hashMarker ++ h = P ++ 38 :: (bs "hash=" ++ h) := by
    rw [show hashMarker = 38 :: bs "hash=" by decide]
    simp [List.append_assoc]
  have hsegne : (bs "hash=" ++ h) ≠ [] := by
    rw [show bs "hash=" = 104 :: bs "ash=" by decide]
    simp
  rw [hfull, urlPairs, urlPairs, splitAmp_append,
    splitAmp_no_sep (bs "hash=" ++ h) ?no38, List.filter_append, List.map_append]
  case no38 =>
    intro c hc
    rcases List.mem_append.mp hc with hc2 | hc2
    · have hall : ∀ x ∈ bs "hash=", x ≠ (38 : Nat) := by decide
      exact hall c hc2
    · exact h38 c hc2
  congr 1
  rw [List.filter_cons_of_pos (by simp [hsegne]), List.filter_nil,
    List.map_cons, List.map_nil]
  have hname : (bs "hash=" ++ h).takeWhile (fun c => c ≠ 61) = bs "hash" := by
    rw [show bs "hash=" = bs "hash" ++ [61] by decide, List.append_assoc,
      show ([61] ++ h : List Nat) = 61 :: h from rfl,
      takeWhile_append_all _ (by decide), List.takeWhile_cons, if_neg (by decide),
      List.append_nil]
  have hval : ((bs "hash=" ++ h).drop (bs "hash").length).drop 1 = h := by
    rw [show bs "hash=" = bs "hash" ++ [61] by decide, List.append_assoc,
      List.drop_left]
    rfl
  rw [segPair, hname, hval, hdec, show urlDecode (bs "hash") = bs "hash" by decide]

theorem urlMap_append_hash (P h : List Nat)
    (h38 : ∀ c ∈ h, c ≠ 38)
    (hdec : urlDecode h = h) :
    urlMap (P ++ hashMarker ++ h) = btInsert (urlMap P) (bs "hash") h := by
  rw [urlMap, urlPairs_append_hash P h h38 hdec, List.foldl_append]
  rfl

/-- C1 (round trip): for a non-empty parameter string `P` that contains an
`auth_date` parameter and neither a `hash` nor a `signature` key, and any
token `T`: appending `&hash=<sign(P,T)>` to `P` yields a string accepted by
`validate` with the expiry check disabled (window `0`), returning exactly
the record the decoder produces for the assembled string.  The assembled
string decodes to `P`'s parameter pairs plus the single appended `hash`
pair, so every parameter of `P` survives with its value ("fields match
`P`").  `parse` rejects any string without a `hash` field, so "`P`
decodable by the parser" is read as the assembled string being decodable
(the hypothesis `hParse`). -/
theorem round_trip (now : Nat) (P T h : List Nat) (d : InitData)
    (_hP : P ≠ [])
    (_hAuth : ∃ kv ∈ urlPairs P, kv.1 = bs "auth_date")
    (hNoHash : ∀ kv ∈ urlPairs P, kv.1 ≠ bs "hash")
    (_hNoSig : ∀ kv ∈ urlPairs P, kv.1 ≠ bs "signature")
    (hSign : sign P T = .ok h)
    (hParse : parse (P ++ hashMarker ++ h) = .ok d) :
    validate now (P ++ hashMarker ++ h) T (some 0) = .ok d ∧
    urlPairs (P ++ hashMarker ++ h) = urlPairs P ++ [(bs "hash", h)] ∧
    urlMap (P ++ hashMarker ++ h) = btInsert (urlMap P) (bs "hash") h ∧
    ∀ k v, mapLookup (urlMap P) k = some v → k ≠ bs "hash" →
      mapLookup (urlMap (P ++ hashMarker ++ h)) k = some v := by
  obtain ⟨hlen, hrange⟩ := sign_digest_bytes hSign
  have h38 : ∀ c ∈ h, c ≠ 38 := by
    intro c hc
    rcases hrange c hc with h1 | h1 <;> omega
  have hdec : urlDecode h = h := by
    apply urlDecode_id
    intro c hc
    rcases hrange c hc with h1 | h1 <;> exact ⟨by omega, by omega, by omega⟩
  have hno : ∀ i, ¬ prefixAt hashMarker P i := by
    intro i hi
    obtain ⟨kv, hkv, hk⟩ := hash_key_of_occurrence P i hi
    exact hNoHash kv hkv hk
  have hpairs := urlPairs_append_hash P h h38 hdec
  have hmap := urlMap_append_hash P h h38 hdec
  refine ⟨?_, hpairs, hmap, ?_⟩
  · have hm61 : (61 : Nat) ∈ P ++ hashMarker ++ h := by
      rw [List.append_assoc]
      exact List.mem_append.mpr (Or.inr (List.mem_append.mpr (Or.inl (by decide))))
    have hc61 : (P ++ hashMarker ++ h).contains 61 = true := by
      rw [show (P ++ hashMarker ++ h).contains 61 =
        (P ++ hashMarker ++ h).elem 61 from rfl]
      exact List.elem_eq_true_of_mem hm61
    have hne : P ++ hashMarker ++ h ≠ [] := by
      intro he
      rw [he] at hm61
      cases hm61
    rw [validate, if_neg ?gate]
    case gate =>
      intro hcon
      rw [hc61, Bool.not_true, Bool.or_false, decide_eq_true_eq] at hcon
      exact hne hcon
    have hx : extractHash (P ++ hashMarker ++ h) = .ok (P, h) := by
      rw [extractHash, strFind_append_marker P h hno]
      show (if !((((P ++ hashMarker ++ h).drop P.length).drop 6).all isHexB) ||
            (((P ++ hashMarker ++ h).drop P.length).drop 6).length ≠ 64
          then Except.error IDError.HashInvalid
          else Except.ok ((P ++ hashMarker ++ h).take P.length,
            ((P ++ hashMarker ++ h).drop P.length).drop 6)) = _
      have hdrop : ((P ++ hashMarker ++ h).drop P.length).drop 6 = h := by
        rw [List.append_assoc, List.drop_left,
          show (6 : Nat) = hashMarker.length from rfl, List.drop_left]
      have htake : (P ++ hashMarker ++ h).take P.length = P := by
        rw [List.append_assoc, List.take_left]
      have hall : h.all isHexB = true := by
        rw [List.all_eq_true]
        intro c hc
        rcases hrange c hc with h1 | h1 <;> simp [isHexB] <;> omega
      rw [hdrop, htake, if_neg (by rw [hall, hlen]; decide)]
    rw [hx]
    dsimp only
    rw [hSign]
    dsimp only
    rw [if_neg (fun hcon => hcon rfl), hParse]
    rfl
  · intro k v hkv hk
    rw [hmap, mapLookup_btInsert, if_neg hk]
    exact hkv

theorem round_trip_witness :
    (parse cexFullP).isOk = true ∧
    validate 5 cexFullP cexToken (some 0) = parse cexFullP ∧
    urlPairs cexFullP = urlPairs cexBaseP ++
      [(bs "hash", (sign cexBaseP cexToken).toOption.getD [])] := by
  have hok : (parse cexFullP).isOk = true := by decide
  refine ⟨hok, ?_⟩
  cases hp : parse cexFullP with
  | error e => rw [hp] at hok; cases hok
  | ok d =>
    have hsg : sign cexBaseP cexToken =
        .ok ((sign cexBaseP cexToken).toOption.getD []) := by decide
    have h := round_trip 5 cexBaseP cexToken
      ((sign cexBaseP cexToken).toOption.getD []) d
      (by decide) (by decide) (by decide) (by decide) hsg hp
    exact ⟨h.1, h.2.1⟩

end InitDataRs
